import Mathlib

/-!
# asciiArtNPP: the image-to-text pipeline of `src/ascii_art.cpp`

A shallow embedding of the pipeline (`outAsciiArt`, `convolutionFilter`, the ten
named filters, `applyConvolutionFilter`, `resizeDeviceImage`, `getStreamContext`,
`getCPUandDeviceImage`, `imageASCIIArt`) and the statements settled about it.

Conventions of the embedding:

* a C++ `int` is an `Int`; where the program computes on a value that a caller
  chooses (the ramp length in `outAsciiArt`, `abs(outColumns)`), the result is
  reduced to the 32-bit two's-complement range with `wrapInt32`, which is what the
  compiled program does where C++ leaves the overflow undefined; the extent of an
  image fits an `int`, so the casts `(int)img.width()` are exact;
* a C++ `float` is a sign and a fraction `num / den` that is rounded to 24
  significant bits (round to nearest, ties to even) after every operation, as
  IEEE binary32 does; `den = 0` stands for the result of a division by zero;
* a `std::string` is a `List Char`, an output stream is the `List Char` written;
* an image is its extent and its 8-bit pixels; host and device copies of an image
  hold the same pixels and are one value;
* CUDA, NPP and the image classes of the samples are not part of the program:
  what they answer is a field of `Backend`, and every function of the pipeline
  takes the backend as its first argument;
* a function that receives a reference and may assign to it returns the value the
  reference holds afterwards;
* an `npp::Exception` leaving a function is the status `none`; `fs::exists` answers
  `none` when it raises `filesystem_error`, and `imageASCIIArt`, which calls it outside
  its `try` block, then returns nothing (`ret = none`).
-/

set_option autoImplicit false

namespace AsciiArt

/-! ## Data -/

/-- An `NppiSize`: width and height, both `int`. -/
structure NppiSize where
  width : Int
  height : Int
  deriving DecidableEq, Repr

/-- An `NppiPoint`: x and y, both `int`. -/
structure NppiPoint where
  x : Int
  y : Int
  deriving DecidableEq, Repr

/-- The values of `NppStatus` that the program names, and any other value a
primitive may report. `NPP_SUCCESS` is the same value as `NPP_NO_ERROR`. -/
inductive NppStatus where
  | NPP_NO_ERROR
  | NPP_MEMCPY_ERROR
  | NPP_NOT_SUFFICIENT_COMPUTE_CAPABILITY
  | other (code : Int)
  deriving DecidableEq, Repr

/-- The success status under its second name. -/
abbrev NPP_SUCCESS : NppStatus := NppStatus.NPP_NO_ERROR

/-- An 8-bit single-channel image (`npp::ImageCPU_8u_C1`, `npp::ImageNPP_8u_C1`):
`pixels x y` is the intensity in column `x` of row `y`. -/
structure Image where
  width : Nat
  height : Nat
  pixels : Nat → Nat → Fin 256

/-- A default-constructed image: no extent, no data. -/
def Image.empty : Image := ⟨0, 0, fun _ _ => 0⟩

/-! ## Glyph mapper (`outAsciiArt`) -/

/-- The ramp `outAsciiArt` falls back to when the caller passes an empty one. -/
def defaultPattern : List Char := "  -.,-=+:;cba?0123456789$WN#@".toList

/-- The value of a 32-bit `int` that holds `x` modulo `2^32` (two's complement). -/
def wrapInt32 (x : Int) : Int := (x + 2147483648) % 4294967296 - 2147483648

/-- The index expression of `outAsciiArt`:
`int patternIndex = (grey * patternLength - 1) / 255;` on 32-bit `int`: the product
and the difference are reduced to the range of `int`, the division is that of C++,
which truncates toward zero. -/
def patternIndex (grey patternLength : Int) : Int :=
  Int.tdiv (wrapInt32 (wrapInt32 (grey * patternLength) - 1)) 255

/-- The subscript `asciiPattern[patternIndex]`. A subscript outside the string has
no defined value in C++; the embedding gives it the NUL character. -/
def charAt (s : List Char) (i : Int) : Char :=
  if 0 ≤ i then s.getD i.toNat (Char.ofNat 0) else Char.ofNat 0

/-- The inner loop of `outAsciiArt` for row `i`: one glyph per pixel, left to
right, then `endl`. The length of the ramp is stored in an `int`
(`int patternLength = asciiPattern.length();`). -/
def asciiRow (img : Image) (asciiPattern : List Char) (i : Nat) : List Char :=
  (List.range img.width).map
    (fun j =>
      let grey : Int := ((img.pixels j i).val : Int)
      let patternLength : Int := wrapInt32 (asciiPattern.length : Int)
      charAt asciiPattern (patternIndex grey patternLength))
    ++ ['\n']

set_option linter.unusedVariables false in
/-- The function `outAsciiArt`: the stream `out` after the call. An empty ramp is
replaced by the default one, then the rows are written top to bottom. The
parameter `filter` is received and not read. -/
def outAsciiArt (out : List Char) (img : Image) (filter : Int)
    (asciiPattern : List Char) : List Char :=
  let asciiPattern := if asciiPattern.length = 0 then defaultPattern else asciiPattern
  out ++ ((List.range img.height).map (asciiRow img asciiPattern)).flatten

/-! ## Single-precision arithmetic of the resize step -/

/-- The magnitude of a `float`: the fraction `num / den`. `den = 0` with `num ≠ 0` is
infinite, `0 / 0` is NaN. -/
structure F32 where
  num : Nat
  den : Nat
  deriving DecidableEq, Repr

/-- The least `k` with `d * 2^23 ≤ n * 2^k`, searched for at most `fuel` steps. -/
def shiftUp : Nat → Nat → Nat → Nat
  | 0, _, _ => 0
  | fuel + 1, n, d => if d * 2 ^ 23 ≤ n then 0 else shiftUp fuel (2 * n) d + 1

/-- The least `j` with `n < d * 2^24 * 2^j`, searched for at most `fuel` steps. -/
def shiftDn : Nat → Nat → Nat → Nat
  | 0, _, _ => 0
  | fuel + 1, n, d => if n < d * 2 ^ 24 then 0 else shiftDn fuel n (2 * d) + 1

/-- The integer nearest to `N / D`, the even one of the two at a tie. -/
def rne (N D : Nat) : Nat :=
  if D < 2 * (N % D) ∨ (2 * (N % D) = D ∧ (N / D) % 2 = 1) then N / D + 1 else N / D

/-- The binary32 value nearest to `n / d` (ties to even): the fraction is scaled by
a power of two until its integer part has 24 bits, rounded to an integer and
scaled back. The exponent range is not limited. -/
def F32.round (n d : Nat) : F32 :=
  if n = 0 ∨ d = 0 then ⟨n, d⟩
  else
    let up := shiftUp (d + 24) n d
    let dn := shiftDn (n + 1) n d
    ⟨rne (n * 2 ^ up) (d * 2 ^ dn) * 2 ^ dn, 2 ^ up⟩

/-- The conversion `(float)k` of a non-negative integer. -/
def F32.ofNat (k : Nat) : F32 := F32.round k 1

/-- The quotient `a / b` in `float`. -/
def F32.div (a b : F32) : F32 := F32.round (a.num * b.den) (a.den * b.num)

/-- The product `a * b` in `float`. -/
def F32.mul (a b : F32) : F32 := F32.round (a.num * b.num) (a.den * b.den)

/-- The comparison `a < b` in `float`: false when `a` is `+inf` or one side is NaN. -/
def F32.lt (a b : F32) : Bool :=
  if a.den = 0 then false
  else if b.den = 0 then decide (b.num ≠ 0)
  else decide (a.num * b.den < b.num * a.den)

/-- The conversion `(int)ceil(a)`; the embedding gives 0 when `a` is not finite. -/
def F32.ceil (a : F32) : Int :=
  if a.den = 0 then 0 else (((a.num + a.den - 1) / a.den : Nat) : Int)

/-- A `float`: a sign and a magnitude. -/
structure SF32 where
  neg : Bool
  mag : F32
  deriving DecidableEq, Repr

/-- Whether the magnitude is NaN. -/
def F32.isNaN (a : F32) : Bool := decide (a.num = 0 ∧ a.den = 0)

/-- The conversion `(float)i` of an `int`. -/
def SF32.ofInt (i : Int) : SF32 := ⟨decide (i < 0), F32.ofNat i.natAbs⟩

/-- The quotient `a / b` in `float`. -/
def SF32.div (a b : SF32) : SF32 := ⟨a.neg != b.neg, F32.div a.mag b.mag⟩

/-- The product `a * b` in `float`. -/
def SF32.mul (a b : SF32) : SF32 := ⟨a.neg != b.neg, F32.mul a.mag b.mag⟩

/-- The comparison `a < b` in `float`; false when a side is NaN. -/
def SF32.lt (a b : SF32) : Bool :=
  if a.mag.isNaN || b.mag.isNaN then false
  else
    match a.neg, b.neg with
    | false, false => F32.lt a.mag b.mag
    | true, true => F32.lt b.mag a.mag
    | true, false => decide (a.mag.num ≠ 0 ∨ b.mag.num ≠ 0)
    | false, true => false

/-- The conversion `(int)ceil(a)`. For a value that is not finite or whose ceiling is
outside the range of `int` the conversion is undefined in C++; the embedding gives
`INT_MIN`, the value the conversion instruction of x86-64 yields. -/
def SF32.ceilToInt (a : SF32) : Int :=
  if a.mag.den = 0 then -2147483648
  else
    let v : Int := if a.neg then -(((a.mag.num / a.mag.den : Nat)) : Int) else F32.ceil a.mag
    if v < -2147483648 ∨ 2147483647 < v then -2147483648 else v

/-! ## The backend -/

/-- What loading the image file and uploading it to the device ends in. -/
inductive LoadResult where
  | loaded (img : Image)
  | stdException
  | nppException

/-- The answers of the file system, CUDA, NPP and the image classes.
`fsExists p` is the answer of `fs::exists` (`none` when it raises
`filesystem_error` because the path cannot be examined);
`deviceAlloc w h` tells whether constructing `npp::ImageNPP_8u_C1(w, h)` succeeds
(it raises `npp::Exception` otherwise); `nppiFilter` and
`nppiResize` give the status of the primitive and the pixels it leaves in the
destination; the Boolean fields tell whether the CUDA call returns `cudaSuccess`. -/
structure Backend where
  fsExists : String → Option Bool
  cudaGetDevice : Bool
  cudaDeviceGetAttributeMajor : Bool
  cudaDeviceGetAttributeMinor : Bool
  cudaGetDeviceProperties : Bool
  loadImage : String → LoadResult
  deviceAlloc : Int → Int → Bool
  nppiFilter : Image → NppiSize → List Int → NppiSize → NppiPoint → Int →
    NppStatus × (Nat → Nat → Fin 256)
  cudaFree : Bool
  nppiResize : Image → NppiSize → NppiSize → NppStatus × (Nat → Nat → Fin 256)
  /-- Modelled from the spec: an image whose width or height is not positive cannot be
  constructed (sections 4.1, 4.3 and 7: a source smaller than the kernel and a
  non-positive resample target are errors); the image class, which is not part of the
  sources at hand, raises `npp::Exception` for such an extent. -/
  alloc_positive : ∀ w h : Int, deviceAlloc w h = true → 0 < w ∧ 0 < h
  /-- Modelled from the spec: the width and the height of a loaded image fit an `int`
  (the extent of an image is handed to the primitives as an `NppiSize`, a pair of
  `int`). -/
  loaded_fits : ∀ (p : String) (img : Image), loadImage p = LoadResult.loaded img →
    img.width ≤ 2147483647 ∧ img.height ≤ 2147483647

/-- The calls a run makes, in order: the stages `imageASCIIArt` enters and the
backend requests the stages issue, each with the arguments passed. -/
inductive Call where
  | getStreamContext
  | getCPUandDeviceImage (imagePath : String)
  | applyConvolutionFilter (filter : Int)
  | deviceAlloc (width height : Int)
  | nppiFilter (srcROI : NppiSize) (kernel : List Int) (kernelSize : NppiSize)
      (anchor : NppiPoint) (divisor : Int)
  | cudaFree
  | resizeDeviceImage (dstSize : NppiSize)
  | nppiResize (srcSize dstSize : NppiSize)
  | outAsciiArt
  deriving DecidableEq, Repr

/-- The result of a stage that takes a source and a destination reference: the
returned status (`none` when an `npp::Exception` leaves the stage), the two images
the references hold afterwards, and the calls made. -/
structure StageRun where
  status : Option NppStatus
  src : Image
  dst : Image
  calls : List Call

/-! ## Convolution stage -/

/-- The function `convolutionFilter`. The destination image is constructed with
the extent of the region of interest; the status of `nppiFilter_8u_C1R_Ctx` is
stored in a local variable that is not read again; only `cudaFree` decides between
`NPP_MEMCPY_ERROR` (destination reference untouched) and `NPP_NO_ERROR`
(destination reference receives the new image). -/
def convolutionFilter (B : Backend) (src dst : Image) (kernel : List Int)
    (kernelSize : NppiSize) (anchor : NppiPoint) (divisor : Int) : StageRun :=
  let srcROI : NppiSize :=
    ⟨(src.width : Int) - kernelSize.width + 1, (src.height : Int) - kernelSize.height + 1⟩
  if B.deviceAlloc srcROI.width srcROI.height = false then
    ⟨none, src, dst, [Call.deviceAlloc srcROI.width srcROI.height]⟩
  else
    let filtered := B.nppiFilter src srcROI kernel kernelSize anchor divisor
    let deviceDst : Image := ⟨srcROI.width.toNat, srcROI.height.toNat, filtered.2⟩
    let calls := [Call.deviceAlloc srcROI.width srcROI.height,
      Call.nppiFilter srcROI kernel kernelSize anchor divisor, Call.cudaFree]
    if B.cudaFree = false then
      ⟨some NppStatus.NPP_MEMCPY_ERROR, src, dst, calls⟩
    else
      ⟨some NppStatus.NPP_NO_ERROR, src, deviceDst, calls⟩

/-- The function `SobelXFilter`. -/
def SobelXFilter (B : Backend) (src dst : Image) : StageRun :=
  convolutionFilter B src dst [-1, 0, 1, -2, 0, 2, -1, 0, 1] ⟨3, 3⟩ ⟨2, 2⟩ 1

/-- The function `SobelYFilter`. -/
def SobelYFilter (B : Backend) (src dst : Image) : StageRun :=
  convolutionFilter B src dst [-1, -2, -1, 0, 0, 0, 1, 2, 1] ⟨3, 3⟩ ⟨2, 2⟩ 1

/-- The function `ScharrXFilter`. -/
def ScharrXFilter (B : Backend) (src dst : Image) : StageRun :=
  convolutionFilter B src dst [3, 0, -3, 10, 0, -10, 3, 0, -3] ⟨3, 3⟩ ⟨2, 2⟩ 1

/-- The function `ScharrYFilter`. -/
def ScharrYFilter (B : Backend) (src dst : Image) : StageRun :=
  convolutionFilter B src dst [3, 10, 3, 0, 0, 0, -3, -10, -3] ⟨3, 3⟩ ⟨2, 2⟩ 1

/-- The function `ScharrXImprovedFilter`. -/
def ScharrXImprovedFilter (B : Backend) (src dst : Image) : StageRun :=
  convolutionFilter B src dst [47, 0, -47, 162, 0, -162, 47, 0, -47] ⟨3, 3⟩ ⟨2, 2⟩ 1

/-- The function `ScharrYImprovedFilter`. -/
def ScharrYImprovedFilter (B : Backend) (src dst : Image) : StageRun :=
  convolutionFilter B src dst [47, 162, 47, 0, 0, 0, -47, -162, -47] ⟨3, 3⟩ ⟨2, 2⟩ 1

/-- The function `KayaliXFilter`. -/
def KayaliXFilter (B : Backend) (src dst : Image) : StageRun :=
  convolutionFilter B src dst [6, 0, -6, 0, 0, 0, -6, 0, 6] ⟨3, 3⟩ ⟨2, 2⟩ 1

/-- The function `KayaliYFilter`. -/
def KayaliYFilter (B : Backend) (src dst : Image) : StageRun :=
  convolutionFilter B src dst [-6, 0, 6, 0, 0, 0, 6, 0, -6] ⟨3, 3⟩ ⟨2, 2⟩ 1

/-- The function `PrewittXFilter`. -/
def PrewittXFilter (B : Backend) (src dst : Image) : StageRun :=
  convolutionFilter B src dst [1, 1, 1, 0, 0, 0, -1, -1, -1] ⟨3, 3⟩ ⟨2, 2⟩ 1

/-- The function `PrewittYFilter`. -/
def PrewittYFilter (B : Backend) (src dst : Image) : StageRun :=
  convolutionFilter B src dst [1, 0, -1, 1, 0, -1, 1, 0, -1] ⟨3, 3⟩ ⟨2, 2⟩ 1

/-- The enumerators of `ConvolutionFilter`, numbered from 0 in declaration order. -/
def SOBEL_X : Int := 0
/-- Enumerator 1. -/
def SOBEL_Y : Int := 1
/-- Enumerator 2. -/
def SCHARR_X : Int := 2
/-- Enumerator 3. -/
def SCHARR_Y : Int := 3
/-- Enumerator 4. -/
def SCHARR_X_IMPROVED : Int := 4
/-- Enumerator 5. -/
def SCHARR_Y_IMPROVED : Int := 5
/-- Enumerator 6. -/
def KAYALI_X : Int := 6
/-- Enumerator 7. -/
def KAYALI_Y : Int := 7
/-- Enumerator 8. -/
def PREWITT_X : Int := 8
/-- Enumerator 9. -/
def PREWITT_Y : Int := 9

/-- The function `applyConvolutionFilter`: the `switch` over the selector, with
`PrewittXFilter` in the `default` branch. -/
def applyConvolutionFilter (B : Backend) (filter : Int) (src dst : Image) : StageRun :=
  if filter = SOBEL_X then SobelXFilter B src dst
  else if filter = SOBEL_Y then SobelYFilter B src dst
  else if filter = SCHARR_X then ScharrXFilter B src dst
  else if filter = SCHARR_Y then ScharrYFilter B src dst
  else if filter = SCHARR_X_IMPROVED then ScharrXImprovedFilter B src dst
  else if filter = SCHARR_Y_IMPROVED then ScharrYImprovedFilter B src dst
  else if filter = KAYALI_X then KayaliXFilter B src dst
  else if filter = KAYALI_Y then KayaliYFilter B src dst
  else if filter = PREWITT_X then PrewittXFilter B src dst
  else if filter = PREWITT_Y then PrewittYFilter B src dst
  else PrewittXFilter B src dst

/-- The weights that the branch of `applyConvolutionFilter` taken for `filter` hands
to `convolutionFilter` (read off the ten named filters). -/
def selectedKernel (filter : Int) : List Int :=
  if filter = SOBEL_X then [-1, 0, 1, -2, 0, 2, -1, 0, 1]
  else if filter = SOBEL_Y then [-1, -2, -1, 0, 0, 0, 1, 2, 1]
  else if filter = SCHARR_X then [3, 0, -3, 10, 0, -10, 3, 0, -3]
  else if filter = SCHARR_Y then [3, 10, 3, 0, 0, 0, -3, -10, -3]
  else if filter = SCHARR_X_IMPROVED then [47, 0, -47, 162, 0, -162, 47, 0, -47]
  else if filter = SCHARR_Y_IMPROVED then [47, 162, 47, 0, 0, 0, -47, -162, -47]
  else if filter = KAYALI_X then [6, 0, -6, 0, 0, 0, -6, 0, 6]
  else if filter = KAYALI_Y then [-6, 0, 6, 0, 0, 0, 6, 0, -6]
  else if filter = PREWITT_X then [1, 1, 1, 0, 0, 0, -1, -1, -1]
  else if filter = PREWITT_Y then [1, 0, -1, 1, 0, -1, 1, 0, -1]
  else [1, 1, 1, 0, 0, 0, -1, -1, -1]

/-- The anchors of the `nppiFilter` requests among the calls of a run. -/
def anchorsPassed : List Call → List NppiPoint
  | [] => []
  | Call.nppiFilter _ _ _ anchor _ :: rest => anchor :: anchorsPassed rest
  | _ :: rest => anchorsPassed rest

/-- The extents asked of `resizeDeviceImage` among the calls of a run. -/
def resizeRequests : List Call → List NppiSize
  | [] => []
  | Call.resizeDeviceImage dstSize :: rest => dstSize :: resizeRequests rest
  | _ :: rest => resizeRequests rest

/-! ## Resample stage -/

/-- The function `resizeDeviceImage`: the destination image is constructed with
the requested extent, `nppiResize_8u_C1R_Ctx` is run over the whole source, the
destination reference receives the new image and the status of the primitive is
returned. -/
def resizeDeviceImage (B : Backend) (src : Image) (dstSize : NppiSize) (dst : Image) :
    StageRun :=
  let srcSize : NppiSize := ⟨(src.width : Int), (src.height : Int)⟩
  if B.deviceAlloc dstSize.width dstSize.height = false then
    ⟨none, src, dst, [Call.deviceAlloc dstSize.width dstSize.height]⟩
  else
    let resized := B.nppiResize src srcSize dstSize
    let deviceDst : Image := ⟨dstSize.width.toNat, dstSize.height.toNat, resized.2⟩
    ⟨some resized.1, src, deviceDst,
      [Call.deviceAlloc dstSize.width dstSize.height, Call.nppiResize srcSize dstSize]⟩

/-! ## Orchestrator -/

/-- The function `getStreamContext`: the first CUDA call that fails ends it with
`NPP_NOT_SUFFICIENT_COMPUTE_CAPABILITY`. -/
def getStreamContext (B : Backend) : NppStatus :=
  if B.cudaGetDevice = false then NppStatus.NPP_NOT_SUFFICIENT_COMPUTE_CAPABILITY
  else if B.cudaDeviceGetAttributeMajor = false then
    NppStatus.NPP_NOT_SUFFICIENT_COMPUTE_CAPABILITY
  else if B.cudaDeviceGetAttributeMinor = false then
    NppStatus.NPP_NOT_SUFFICIENT_COMPUTE_CAPABILITY
  else if B.cudaGetDeviceProperties = false then
    NppStatus.NPP_NOT_SUFFICIENT_COMPUTE_CAPABILITY
  else NPP_SUCCESS

/-- The result of `getCPUandDeviceImage`: the returned flag (`none` when an
`npp::Exception` leaves the function) and the two images afterwards. -/
structure LoadRun where
  ok : Option Bool
  hostImage : Image
  deviceImage : Image

/-- The function `getCPUandDeviceImage`: the two references are assigned only when
loading and uploading succeed; the handler catches `std::exception` and returns
false; an `npp::Exception` is not caught here. -/
def getCPUandDeviceImage (B : Backend) (imagePath : String)
    (hostImage deviceImage : Image) : LoadRun :=
  match B.loadImage imagePath with
  | LoadResult.loaded img => ⟨some true, img, img⟩
  | LoadResult.stdException => ⟨some false, hostImage, deviceImage⟩
  | LoadResult.nppException => ⟨none, hostImage, deviceImage⟩

/-- The result of `imageASCIIArt`: the returned flag (`none` when an exception leaves
the function and nothing is returned), what was written to `cout` and to `cerr`, and
the calls made. -/
structure Run where
  ret : Option Bool
  cout : List Char
  cerr : List String
  calls : List Call

/-- The width the request resolves to:
`if (outColumns < 0) outColumns = abs(outColumns); else if (outColumns == 0)
outColumns = oSrcSize.width;`. The absolute value is an `int`: that of `INT_MIN`
is `INT_MIN` again. -/
def resolveColumns (outColumns srcWidth : Int) : Int :=
  if outColumns < 0 then wrapInt32 |outColumns|
  else if outColumns = 0 then srcWidth
  else outColumns

/-- The extent passed to `resizeDeviceImage`: the extent of the filtered image,
replaced by `ceil` of the source extent times the factor when the factor
`(float)outColumns / (float)oSrcSize.width` is below 1. -/
def resizedSize (outColumns : Int) (oSrcSize oDstSize : NppiSize) : NppiSize :=
  let resizeFactor := SF32.div (SF32.ofInt outColumns) (SF32.ofInt oSrcSize.width)
  if SF32.lt resizeFactor (SF32.ofInt 1) then
    ⟨SF32.ceilToInt (SF32.mul (SF32.ofInt oSrcSize.width) resizeFactor),
     SF32.ceilToInt (SF32.mul (SF32.ofInt oSrcSize.height) resizeFactor)⟩
  else oDstSize

/-- The function `imageASCIIArt`. The call of `fs::exists` stands before the `try`
block: when it raises, the exception leaves the function. Inside the block every
`npp::Exception` is caught and turned into the result false. -/
def imageASCIIArt (B : Backend) (imagePath : String) (outColumns : Int) (filter : Int)
    (asciiPattern : List Char) : Run :=
  match B.fsExists imagePath with
  | none => ⟨none, [], [], []⟩
  | some false =>
    ⟨some false, [], ["Image " ++ imagePath ++ " does not exist or is not accessible"], []⟩
  | some true =>
  if getStreamContext B ≠ NPP_SUCCESS then
    ⟨some false, [], ["Unable to get NPP stream context"], [Call.getStreamContext]⟩
  else
    let load := getCPUandDeviceImage B imagePath Image.empty Image.empty
    let calls := [Call.getStreamContext, Call.getCPUandDeviceImage imagePath]
    match load.ok with
    | none => ⟨some false, [], ["npp::Exception"], calls⟩
    | some _ =>
      let oHostSrc := load.hostImage
      let oDeviceSrc := load.deviceImage
      let conv := applyConvolutionFilter B filter oDeviceSrc Image.empty
      let calls := calls ++ [Call.applyConvolutionFilter filter] ++ conv.calls
      match conv.status with
      | none => ⟨some false, [], ["npp::Exception"], calls⟩
      | some nppStatus =>
        if nppStatus ≠ NppStatus.NPP_NO_ERROR then
          ⟨some false, [], ["Error applying filter"], calls⟩
        else
          let oDeviceDst := conv.dst
          let oSrcSize : NppiSize := ⟨(oHostSrc.width : Int), (oHostSrc.height : Int)⟩
          let outColumns := resolveColumns outColumns oSrcSize.width
          if outColumns = oSrcSize.width then
            ⟨some true, outAsciiArt [] oDeviceDst filter asciiPattern, [],
              calls ++ [Call.outAsciiArt]⟩
          else
            let oDstSize : NppiSize := ⟨(oDeviceDst.width : Int), (oDeviceDst.height : Int)⟩
            let oDstResizedSize := resizedSize outColumns oSrcSize oDstSize
            let rs := resizeDeviceImage B oDeviceDst oDstResizedSize Image.empty
            let calls := calls ++ [Call.resizeDeviceImage oDstResizedSize] ++ rs.calls
            match rs.status with
            | none => ⟨some false, [], ["npp::Exception"], calls⟩
            | some nppStatus =>
              if nppStatus ≠ NppStatus.NPP_NO_ERROR then
                ⟨some false, [], ["Error resizing image"], calls⟩
              else
                ⟨some true, outAsciiArt [] rs.dst filter asciiPattern, [],
                  calls ++ [Call.outAsciiArt]⟩

/-- The image `applyConvolutionFilter` stores for the source `img` when the allocation
and `cudaFree` succeed: the region of interest of a 3 x 3 kernel, filled by the
primitive. -/
def filteredImage (B : Backend) (img : Image) (filter : Int) : Image :=
  ⟨((img.width : Int) - 3 + 1).toNat, ((img.height : Int) - 3 + 1).toNat,
    (B.nppiFilter img ⟨(img.width : Int) - 3 + 1, (img.height : Int) - 3 + 1⟩
      (selectedKernel filter) ⟨3, 3⟩ ⟨2, 2⟩ 1).2⟩

/-- The image `resizeDeviceImage` stores for the source `src` and the extent `dstSize`
when the allocation succeeds. -/
def resizedImage (B : Backend) (src : Image) (dstSize : NppiSize) : Image :=
  ⟨dstSize.width.toNat, dstSize.height.toNat,
    (B.nppiResize src ⟨(src.width : Int), (src.height : Int)⟩ dstSize).2⟩

/-- The calls of the convolution stage of `imageASCIIArt` on a source that is loaded
and filtered without an error. -/
def filterCalls (imagePath : String) (img : Image) (filter : Int) : List Call :=
  [Call.getStreamContext, Call.getCPUandDeviceImage imagePath,
    Call.applyConvolutionFilter filter,
    Call.deviceAlloc ((img.width : Int) - 3 + 1) ((img.height : Int) - 3 + 1),
    Call.nppiFilter ⟨(img.width : Int) - 3 + 1, (img.height : Int) - 3 + 1⟩
      (selectedKernel filter) ⟨3, 3⟩ ⟨2, 2⟩ 1,
    Call.cudaFree]

/-! ## A reference backend

Used to run the pipeline on concrete inputs. -/

/-- Modelled from the spec: the correlation of section 4.1 (the NPP primitive is not
part of the repository). The output pixel `(x, y)` is the truncated quotient of the
sum of `kernel[i][j] * source[x+i][y+j]` over the kernel cells by the divisor, kept
inside `[0, 255]`. -/
def correlate (src : Image) (kernel : List Int) (kernelSize : NppiSize) (divisor : Int)
    (x y : Nat) : Fin 256 :=
  let kw := kernelSize.width.toNat
  let kh := kernelSize.height.toNat
  let sum : Int := ((List.range kh).map (fun j => ((List.range kw).map (fun i =>
    kernel.getD (j * kw + i) 0 * ((src.pixels (x + i) (y + j)).val : Int))).sum)).sum
  Fin.ofNat (max 0 (min (Int.tdiv sum divisor) 255)).toNat

/-- A stand-in for the resample primitive: nearest-neighbour sampling of the source
at the requested extent. -/
def resampleNearest (src : Image) (dstSize : NppiSize) (x y : Nat) : Fin 256 :=
  src.pixels (x * src.width / dstSize.width.toNat) (y * src.height / dstSize.height.toNat)

/-- A backend on which every path exists and holds `img`, the device is usable,
an image is allocated exactly when both of its dimensions are positive, and the
primitives report a size error for an empty region. -/
def refBackend (img : Image) : Backend where
  fsExists := fun _ => some true
  cudaGetDevice := true
  cudaDeviceGetAttributeMajor := true
  cudaDeviceGetAttributeMinor := true
  cudaGetDeviceProperties := true
  loadImage := fun _ =>
    if img.width ≤ 2147483647 ∧ img.height ≤ 2147483647 then LoadResult.loaded img
    else LoadResult.nppException
  deviceAlloc := fun w h => decide (0 < w ∧ 0 < h)
  nppiFilter := fun src roi kernel kernelSize _ divisor =>
    (if roi.width ≤ 0 ∨ roi.height ≤ 0 then NppStatus.other (-6) else NppStatus.NPP_NO_ERROR,
      correlate src kernel kernelSize divisor)
  cudaFree := true
  nppiResize := fun src _ dstSize =>
    (if dstSize.width ≤ 0 ∨ dstSize.height ≤ 0 then NppStatus.other (-6)
      else NppStatus.NPP_NO_ERROR,
      resampleNearest src dstSize)
  alloc_positive := fun w h hA => by simpa using hA
  loaded_fits := fun _ img' hL => by
    split at hL
    · next hfit =>
      injection hL with e
      subst e
      exact hfit
    · cases hL

/-- The image of the given extent with every pixel equal to `v`. -/
def constImage (width height : Nat) (v : Fin 256) : Image := ⟨width, height, fun _ _ => v⟩

/-- The image of the given extent whose pixel `(x, y)` is `(37 * x + 101 * y) mod 256`. -/
def gradientImage (width height : Nat) : Image :=
  ⟨width, height, fun x y => Fin.ofNat (37 * x + 101 * y)⟩

/-- The value `main` gives its variable `asciiPattern` before reading the arguments; it
is passed to `imageASCIIArt` unless a fourth argument replaces it. -/
def mainAsciiPattern : List Char := "  -.,-=+:;cba?0123456789$WN#@".toList

/-- The reference backend whose convolution primitive computes the pixels and reports
the failure status -1000. -/
def faultyFilterBackend (img : Image) : Backend :=
  { refBackend img with
    nppiFilter := fun src _ kernel kernelSize _ divisor =>
      (NppStatus.other (-1000), correlate src kernel kernelSize divisor) }

/-- The reference backend whose resample primitive reports the failure status -1000. -/
def faultyResizeBackend (img : Image) : Backend :=
  { refBackend img with
    nppiResize := fun src _ dstSize => (NppStatus.other (-1000), resampleNearest src dstSize) }

/-! ## Lemmas on the glyph mapper -/

theorem wrapInt32_of_fits (x : Int) (h1 : -2147483648 ≤ x) (h2 : x ≤ 2147483647) :
    wrapInt32 x = x := by
  unfold wrapInt32
  omega

/-- For a ramp of at most 8421504 characters neither the product nor the difference
in `patternIndex` leaves the range of `int`. -/
theorem patternIndex_fits_int (v L : Int) (hv0 : 0 ≤ v) (hv : v ≤ 255) (hL0 : 0 ≤ L)
    (hL : L ≤ 8421504) :
    -2147483648 ≤ v * L - 1 ∧ v * L ≤ 2147483647 := by
  have h1 : 0 ≤ v * L := mul_nonneg hv0 hL0
  have h2 : v * L ≤ 255 * L := mul_le_mul_of_nonneg_right hv hL0
  constructor <;> omega

theorem patternIndex_exact (v L : Int) (hv0 : 0 ≤ v) (hv : v ≤ 255) (hL0 : 0 ≤ L)
    (hL : L ≤ 8421504) : patternIndex v L = Int.tdiv (v * L - 1) 255 := by
  obtain ⟨h1, h2⟩ := patternIndex_fits_int v L hv0 hv hL0 hL
  unfold patternIndex
  rw [wrapInt32_of_fits (v * L) (by omega) h2, wrapInt32_of_fits (v * L - 1) h1 (by omega)]

theorem patternIndex_zero (L : Int) : patternIndex 0 L = 0 := by
  simp only [patternIndex, zero_mul]
  decide

theorem patternIndex_pos_eq (v L : Int) (hv : 1 ≤ v) (hv2 : v ≤ 255) (hL : 1 ≤ L)
    (hLmax : L ≤ 8421504) :
    patternIndex v L = (v * L - 1) / 255 := by
  have : 1 ≤ v * L := by nlinarith
  rw [patternIndex_exact v L (by omega) hv2 (by omega) hLmax]
  exact Int.tdiv_eq_ediv (by omega) (by decide)

theorem patternIndex_nonneg (v L : Int) (hv : 0 ≤ v) (hv2 : v ≤ 255) (hL : 1 ≤ L)
    (hLmax : L ≤ 8421504) :
    0 ≤ patternIndex v L := by
  rcases Int.lt_or_le 0 v with h | h
  · have : 1 ≤ v * L := by nlinarith
    rw [patternIndex_pos_eq v L (by omega) hv2 hL hLmax]
    omega
  · have : v = 0 := by omega
    rw [this, patternIndex_zero]

theorem patternIndex_le (v L : Int) (hv : 0 ≤ v) (hv2 : v ≤ 255) (hL : 1 ≤ L)
    (hLmax : L ≤ 8421504) :
    patternIndex v L ≤ L - 1 := by
  rcases Int.lt_or_le 0 v with h | h
  · have h1 : 1 ≤ v * L := by nlinarith
    have h2 : v * L ≤ 255 * L := by nlinarith
    rw [patternIndex_pos_eq v L (by omega) hv2 hL hLmax]
    omega
  · have : v = 0 := by omega
    rw [this, patternIndex_zero]
    omega

theorem patternIndex_full (L : Int) (hL : 1 ≤ L) (hLmax : L ≤ 8421504) :
    patternIndex 255 L = L - 1 := by
  rw [patternIndex_pos_eq 255 L (by decide) (by decide) hL hLmax]
  omega

theorem charAt_of_inBounds (s : List Char) (i : Int) (h0 : 0 ≤ i) (h1 : i < s.length) :
    s[i.toNat]? = some (charAt s i) := by
  have hlt : i.toNat < s.length := by omega
  simp [charAt, h0, List.getD, List.getElem?_eq_getElem hlt]

theorem flatten_uniform_getElem? {α : Type} (k : Nat) :
    ∀ (rows : List (List α)), (∀ r ∈ rows, r.length = k) →
    ∀ (y x : Nat), x < k → (rows.flatten)[y * k + x]? = (rows[y]?).bind (fun r => r[x]?)
  | [], _, y, x, _ => by simp
  | r :: rs, h, 0, x, hx => by
      have hr : r.length = k := h r (List.mem_cons_self _ _)
      simp [List.getElem?_append_left (by omega : x < r.length)]
  | r :: rs, h, y + 1, x, hx => by
      have hr : r.length = k := h r (List.mem_cons_self _ _)
      have ih := flatten_uniform_getElem? k rs
        (fun r' hr' => h r' (List.mem_cons_of_mem _ hr')) y x hx
      have e : (y + 1) * k + x = r.length + (y * k + x) := by rw [hr]; ring
      simp only [List.flatten_cons, e, List.getElem?_cons_succ]
      rw [List.getElem?_append_right (by omega)]
      simpa using ih

theorem flatten_uniform_length {α : Type} (k : Nat) :
    ∀ (rows : List (List α)), (∀ r ∈ rows, r.length = k) →
      rows.flatten.length = rows.length * k
  | [], _ => by simp
  | r :: rs, h => by
      have hr : r.length = k := h r (List.mem_cons_self _ _)
      have ih := flatten_uniform_length k rs (fun r' hr' => h r' (List.mem_cons_of_mem _ hr'))
      simp [ih, hr]; ring

theorem asciiRow_length (img : Image) (ramp : List Char) (i : Nat) :
    (asciiRow img ramp i).length = img.width + 1 := by
  simp [asciiRow]

theorem asciiRow_glyph (img : Image) (ramp : List Char) (y x : Nat) (hx : x < img.width) :
    (asciiRow img ramp y)[x]? =
      some (charAt ramp (patternIndex ((img.pixels x y).val : Int)
        (wrapInt32 (ramp.length : Int)))) := by
  unfold asciiRow
  rw [List.getElem?_append_left (by simpa using hx)]
  simp [List.getElem?_map, List.getElem?_range hx]

theorem asciiRow_terminator (img : Image) (ramp : List Char) (y : Nat) :
    (asciiRow img ramp y)[img.width]? = some '\n' := by
  unfold asciiRow
  rw [List.getElem?_append_right (by simp)]
  simp

theorem outAsciiArt_nonempty (out : List Char) (img : Image) (filter : Int)
    (ramp : List Char) (h : ramp ≠ []) :
    outAsciiArt out img filter ramp =
      out ++ ((List.range img.height).map (asciiRow img ramp)).flatten := by
  have : ramp.length ≠ 0 := by
    intro h0; exact h (List.length_eq_zero.mp h0)
  simp [outAsciiArt, this]

theorem outAsciiArt_length (img : Image) (filter : Int) (ramp : List Char) :
    (outAsciiArt [] img filter ramp).length = img.height * (img.width + 1) := by
  unfold outAsciiArt
  simp only [List.nil_append]
  rw [flatten_uniform_length (img.width + 1)]
  · simp
  · intro r hr
    simp only [List.mem_map] at hr
    obtain ⟨i, _, rfl⟩ := hr
    exact asciiRow_length _ _ _

theorem text_getElem? (img : Image) (ramp : List Char) (y x : Nat) (hy : y < img.height)
    (hx : x < img.width + 1) :
    (((List.range img.height).map (asciiRow img ramp)).flatten)[y * (img.width + 1) + x]? =
      (asciiRow img ramp y)[x]? := by
  rw [flatten_uniform_getElem? (img.width + 1) _ _ y x hx]
  · simp [List.getElem?_map, List.getElem?_range hy]
  · intro r hr
    simp only [List.mem_map] at hr
    obtain ⟨i, _, rfl⟩ := hr
    exact asciiRow_length _ _ _

theorem outAsciiArt_lines (img : Image) (filter : Int) (asciiPattern : List Char) :
    ∃ lines : List (List Char), lines.length = img.height ∧
      (∀ l ∈ lines, l.length = img.width) ∧
      outAsciiArt [] img filter asciiPattern =
        (lines.map (fun l => l ++ ['\n'])).flatten := by
  refine ⟨(List.range img.height).map (fun i => (List.range img.width).map (fun j =>
    charAt (if asciiPattern.length = 0 then defaultPattern else asciiPattern)
      (patternIndex ((img.pixels j i).val : Int)
        (wrapInt32 (((if asciiPattern.length = 0 then defaultPattern
          else asciiPattern).length : Nat) : Int))))),
    by simp, ?_, ?_⟩
  · intro l hl
    simp only [List.mem_map] at hl
    obtain ⟨i, _, rfl⟩ := hl
    simp
  · simp only [outAsciiArt, List.nil_append, List.map_map, Function.comp_def]
    rfl

/-! ## C1 and C2: the glyph mapper -/

/-- C1, the claim as stated fails: for a ramp of 8421505 characters and the intensity
255 the product `255 * 8421505` exceeds the largest `int`, the index computed is
-8421504 and not `L - 1`, and the subscript is outside the ramp. -/
theorem patternIndex_overflow_counterexample :
    patternIndex 255 8421505 = -8421504 ∧
    ¬ (0 ≤ patternIndex 255 8421505 ∧ patternIndex 255 8421505 ≤ 8421505 - 1) ∧
    ¬ (patternIndex 255 8421505 = 8421505 - 1) := by
  refine ⟨by decide, by decide, by decide⟩

/-- C1 as amended: for every ramp length `L` with `1 ≤ L ≤ 8421504` (the lengths for
which `255 * L` fits a 32-bit `int`) and every intensity `v` in `0..255` the index
`(v * L - 1) / 255` that `outAsciiArt` computes with truncating division, without any
clamping, lies in `[0, L - 1]`; it is 0 for `v = 0` and `L - 1` for `v = 255`; hence
the subscript into a ramp of length `L` is inside the ramp. -/
theorem patternIndex_in_range (L v : Int) (hL : 1 ≤ L) (hLmax : L ≤ 8421504)
    (hv0 : 0 ≤ v) (hv : v ≤ 255) :
    patternIndex v L = Int.tdiv (v * L - 1) 255 ∧
    0 ≤ patternIndex v L ∧ patternIndex v L ≤ L - 1 ∧
    patternIndex 0 L = 0 ∧ patternIndex 255 L = L - 1 ∧
    ∀ ramp : List Char, (ramp.length : Int) = L →
      (patternIndex v L).toNat < ramp.length ∧
      ramp[(patternIndex v L).toNat]? = some (charAt ramp (patternIndex v L)) := by
  have h0 := patternIndex_nonneg v L hv0 hv hL hLmax
  have h1 := patternIndex_le v L hv0 hv hL hLmax
  refine ⟨patternIndex_exact v L hv0 hv (by omega) hLmax, h0, h1, patternIndex_zero L,
    patternIndex_full L hL hLmax, ?_⟩
  intro ramp hr
  exact ⟨by omega, charAt_of_inBounds ramp _ h0 (by omega)⟩

/-- Witness of the amended C1 at the ramp length 2 and the intensity 200. -/
theorem patternIndex_in_range_witness :
    patternIndex 200 2 = Int.tdiv (200 * 2 - 1) 255 ∧
    0 ≤ patternIndex 200 2 ∧ patternIndex 200 2 ≤ 2 - 1 ∧
    patternIndex 0 2 = 0 ∧ patternIndex 255 2 = 2 - 1 ∧
    ∀ ramp : List Char, (ramp.length : Int) = 2 →
      (patternIndex 200 2).toNat < ramp.length ∧
      ramp[(patternIndex 200 2).toNat]? = some (charAt ramp (patternIndex 200 2)) :=
  patternIndex_in_range 2 200 (by decide) (by decide) (by decide) (by decide)

/-- C2, the claim as stated fails: for the 1 x 1 image of intensity 255 and a ramp of
8421505 characters `x` the claim names the glyph `ramp[(255 * 8421505 - 1) / 255]`,
the entry 8421504 of the ramp, which is `x`; `outAsciiArt` computes the index
-8421504 and reads outside the ramp (the embedding writes NUL there). -/
theorem outAsciiArt_long_ramp_counterexample :
    patternIndex 255 (wrapInt32 ((List.replicate 8421505 'x').length : Int)) = -8421504 ∧
    (List.replicate 8421505 'x')[(Int.tdiv (255 * 8421505 - 1) 255).toNat]? = some 'x' ∧
    (outAsciiArt [] (constImage 1 1 255) 0 (List.replicate 8421505 'x'))[0]?
      = some (Char.ofNat 0) ∧
    ¬ ((outAsciiArt [] (constImage 1 1 255) 0 (List.replicate 8421505 'x'))[0]?
      = (List.replicate 8421505 'x')[(Int.tdiv (255 * 8421505 - 1) 255).toNat]?) := by
  have hlen : (List.replicate 8421505 'x').length = 8421505 := List.length_replicate _ _
  have hidx : patternIndex 255 (wrapInt32 ((8421505 : Nat) : Int)) = -8421504 := by decide
  have hk : (Int.tdiv (255 * 8421505 - 1) 255).toNat = 8421504 := by decide
  have hramp : (List.replicate 8421505 'x')[8421504]? = some 'x' := by
    rw [List.getElem?_replicate]
    decide
  have htext : (outAsciiArt [] (constImage 1 1 255) 0 (List.replicate 8421505 'x'))[0]?
      = some (Char.ofNat 0) := by
    have hne : ¬ (List.replicate 8421505 'x').length = 0 := by rw [hlen]; decide
    have hrow : asciiRow (constImage 1 1 255) (List.replicate 8421505 'x') 0
        = [Char.ofNat 0, '\n'] := by
      show (List.range 1).map _ ++ ['\n'] = _
      have hr : List.range 1 = [0] := by decide
      rw [hr, List.map_cons, List.map_nil]
      show [charAt (List.replicate 8421505 'x')
        (patternIndex ((255 : Fin 256).val : Int)
          (wrapInt32 ((List.replicate 8421505 'x').length : Int)))] ++ ['\n'] = _
      rw [hlen]
      have h255 : (((255 : Fin 256).val : Nat) : Int) = 255 := by decide
      rw [h255, hidx]
      rfl
    unfold outAsciiArt
    rw [if_neg hne]
    show ([] ++ ((List.range 1).map
      (asciiRow (constImage 1 1 255) (List.replicate 8421505 'x'))).flatten)[0]? = _
    have hr : List.range 1 = [0] := by decide
    rw [hr, List.map_cons, List.map_nil, hrow]
    rfl
  refine ⟨by rw [hlen]; exact hidx, by rw [hk]; exact hramp, htext, ?_⟩
  rw [htext, hk, hramp]
  decide

/-- C2 as amended: for every pixel buffer of width `W` and height `H` and every
non-empty ramp of length `L ≤ 8421504`, the text written by `outAsciiArt` is `H` lines
of `W` characters, each line followed by one terminator: position `x < W` of line `y`
holds `ramp[(pixel(x, y) * L - 1) / 255]` (an index inside the ramp), position `W`
holds the terminator; lines follow the rows top to bottom and positions follow the
pixels left to right; the text is appended to what the stream held and does not depend
on the `filter` argument. -/
theorem outAsciiArt_text (img : Image) (filter : Int) (ramp : List Char) (h : ramp ≠ [])
    (hLmax : ramp.length ≤ 8421504) :
    (outAsciiArt [] img filter ramp).length = img.height * (img.width + 1) ∧
    (∀ y x : Nat, y < img.height → x < img.width →
      ∃ k : Nat, (k : Int) = Int.tdiv (((img.pixels x y).val : Int) * (ramp.length : Int) - 1) 255 ∧
        ∃ c : Char, ramp[k]? = some c ∧
          (outAsciiArt [] img filter ramp)[y * (img.width + 1) + x]? = some c) ∧
    (∀ y : Nat, y < img.height →
      (outAsciiArt [] img filter ramp)[y * (img.width + 1) + img.width]? = some '\n') ∧
    (∃ lines : List (List Char), lines.length = img.height ∧
      (∀ l ∈ lines, l.length = img.width) ∧
      outAsciiArt [] img filter ramp = (lines.map (fun l => l ++ ['\n'])).flatten) ∧
    (∀ filter' : Int, outAsciiArt [] img filter' ramp = outAsciiArt [] img filter ramp) ∧
    (∀ out : List Char,
      outAsciiArt out img filter ramp = out ++ outAsciiArt [] img filter ramp) := by
  have hL : (1 : Int) ≤ (ramp.length : Int) := by
    have : ramp.length ≠ 0 := fun h0 => h (List.length_eq_zero.mp h0)
    omega
  have hLm : (ramp.length : Int) ≤ 8421504 := by omega
  have hwrap : wrapInt32 (ramp.length : Int) = (ramp.length : Int) :=
    wrapInt32_of_fits _ (by omega) (by omega)
  refine ⟨outAsciiArt_length img filter ramp, ?_, ?_, outAsciiArt_lines img filter ramp,
    ?_, ?_⟩
  · intro y x hy hx
    have hv0 : (0 : Int) ≤ ((img.pixels x y).val : Int) := by omega
    have hv1 : ((img.pixels x y).val : Int) ≤ 255 := by
      have := (img.pixels x y).isLt
      omega
    have h0 := patternIndex_nonneg _ _ hv0 hv1 hL hLm
    have h1 := patternIndex_le _ _ hv0 hv1 hL hLm
    refine ⟨(patternIndex ((img.pixels x y).val : Int) (ramp.length : Int)).toNat, ?_, ?_⟩
    · rw [Int.toNat_of_nonneg h0]
      exact patternIndex_exact _ _ hv0 hv1 (by omega) hLm
    · refine ⟨charAt ramp (patternIndex ((img.pixels x y).val : Int) (ramp.length : Int)),
        charAt_of_inBounds ramp _ h0 (by omega), ?_⟩
      rw [outAsciiArt_nonempty [] img filter ramp h, List.nil_append,
        text_getElem? img ramp y x hy (by omega), asciiRow_glyph img ramp y x hx, hwrap]
  · intro y hy
    rw [outAsciiArt_nonempty [] img filter ramp h, List.nil_append,
      text_getElem? img ramp y img.width hy (by omega)]
    exact asciiRow_terminator img ramp y
  · intro filter'
    rfl
  · intro out
    simp [outAsciiArt]

/-- Witness of the amended C2 on a 3 x 2 gradient image and the ramp `" .:#"`. -/
theorem outAsciiArt_text_witness :
    (outAsciiArt [] (gradientImage 3 2) 5 " .:#".toList).length = 2 * (3 + 1) ∧
    outAsciiArt [] (gradientImage 3 2) 5 " .:#".toList = "  .\n.::\n".toList :=
  ⟨(outAsciiArt_text (gradientImage 3 2) 5 " .:#".toList (by decide) (by decide)).1,
    by decide⟩

/-! ## C3: the kernel catalog -/

theorem applyConvolutionFilter_default (B : Backend) (filter : Int) (src dst : Image)
    (h : filter < 0 ∨ 9 < filter) :
    applyConvolutionFilter B filter src dst = PrewittXFilter B src dst := by
  have h0 : filter ≠ 0 := by omega
  have h1 : filter ≠ 1 := by omega
  have h2 : filter ≠ 2 := by omega
  have h3 : filter ≠ 3 := by omega
  have h4 : filter ≠ 4 := by omega
  have h5 : filter ≠ 5 := by omega
  have h6 : filter ≠ 6 := by omega
  have h7 : filter ≠ 7 := by omega
  have h9 : filter ≠ 9 := by omega
  simp [applyConvolutionFilter, SOBEL_X, SOBEL_Y, SCHARR_X, SCHARR_Y, SCHARR_X_IMPROVED,
    SCHARR_Y_IMPROVED, KAYALI_X, KAYALI_Y, PREWITT_X, PREWITT_Y, h0, h1, h2, h3, h4, h5, h6,
    h7, h9]

/-- C3: `applyConvolutionFilter` maps each selector 0..9 to the named filter of the
table (0 Sobel-X, 1 Sobel-Y, 2 Scharr-X, 3 Scharr-Y, 4 Scharr-X-improved,
5 Scharr-Y-improved, 6 Kayali-X, 7 Kayali-Y, 8 Prewitt-X, 9 Prewitt-Y), which runs
`convolutionFilter` with the listed row-major 3 x 3 weights and divisor 1, and maps
every other selector to the kernel, anchor and divisor of selector 8 (Prewitt-X), so
the result for an out-of-range selector is the result for selector 8 on the same
source. -/
theorem applyConvolutionFilter_catalog (B : Backend) (src dst : Image) :
    (applyConvolutionFilter B 0 src dst = SobelXFilter B src dst ∧
      SobelXFilter B src dst = convolutionFilter B src dst [-1, 0, 1, -2, 0, 2, -1, 0, 1] ⟨3, 3⟩ ⟨2, 2⟩ 1) ∧
    (applyConvolutionFilter B 1 src dst = SobelYFilter B src dst ∧
      SobelYFilter B src dst = convolutionFilter B src dst [-1, -2, -1, 0, 0, 0, 1, 2, 1] ⟨3, 3⟩ ⟨2, 2⟩ 1) ∧
    (applyConvolutionFilter B 2 src dst = ScharrXFilter B src dst ∧
      ScharrXFilter B src dst = convolutionFilter B src dst [3, 0, -3, 10, 0, -10, 3, 0, -3] ⟨3, 3⟩ ⟨2, 2⟩ 1) ∧
    (applyConvolutionFilter B 3 src dst = ScharrYFilter B src dst ∧
      ScharrYFilter B src dst = convolutionFilter B src dst [3, 10, 3, 0, 0, 0, -3, -10, -3] ⟨3, 3⟩ ⟨2, 2⟩ 1) ∧
    (applyConvolutionFilter B 4 src dst = ScharrXImprovedFilter B src dst ∧
      ScharrXImprovedFilter B src dst = convolutionFilter B src dst [47, 0, -47, 162, 0, -162, 47, 0, -47] ⟨3, 3⟩ ⟨2, 2⟩ 1) ∧
    (applyConvolutionFilter B 5 src dst = ScharrYImprovedFilter B src dst ∧
      ScharrYImprovedFilter B src dst = convolutionFilter B src dst [47, 162, 47, 0, 0, 0, -47, -162, -47] ⟨3, 3⟩ ⟨2, 2⟩ 1) ∧
    (applyConvolutionFilter B 6 src dst = KayaliXFilter B src dst ∧
      KayaliXFilter B src dst = convolutionFilter B src dst [6, 0, -6, 0, 0, 0, -6, 0, 6] ⟨3, 3⟩ ⟨2, 2⟩ 1) ∧
    (applyConvolutionFilter B 7 src dst = KayaliYFilter B src dst ∧
      KayaliYFilter B src dst = convolutionFilter B src dst [-6, 0, 6, 0, 0, 0, 6, 0, -6] ⟨3, 3⟩ ⟨2, 2⟩ 1) ∧
    (applyConvolutionFilter B 8 src dst = PrewittXFilter B src dst ∧
      PrewittXFilter B src dst = convolutionFilter B src dst [1, 1, 1, 0, 0, 0, -1, -1, -1] ⟨3, 3⟩ ⟨2, 2⟩ 1) ∧
    (applyConvolutionFilter B 9 src dst = PrewittYFilter B src dst ∧
      PrewittYFilter B src dst = convolutionFilter B src dst [1, 0, -1, 1, 0, -1, 1, 0, -1] ⟨3, 3⟩ ⟨2, 2⟩ 1) ∧
    ∀ filter : Int, filter < 0 ∨ 9 < filter →
      applyConvolutionFilter B filter src dst = applyConvolutionFilter B 8 src dst ∧
      applyConvolutionFilter B filter src dst =
        convolutionFilter B src dst [1, 1, 1, 0, 0, 0, -1, -1, -1] ⟨3, 3⟩ ⟨2, 2⟩ 1 := by
  refine ⟨⟨rfl, rfl⟩, ⟨rfl, rfl⟩, ⟨rfl, rfl⟩, ⟨rfl, rfl⟩, ⟨rfl, rfl⟩, ⟨rfl, rfl⟩, ⟨rfl, rfl⟩,
    ⟨rfl, rfl⟩, ⟨rfl, rfl⟩, ⟨rfl, rfl⟩, ?_⟩
  intro filter h
  rw [applyConvolutionFilter_default B filter src dst h]
  exact ⟨rfl, rfl⟩

/-- Witness of C3: selectors 99 and -1 on a 5 x 5 gradient image. -/
theorem applyConvolutionFilter_catalog_witness :
    applyConvolutionFilter (refBackend (gradientImage 5 5)) 99 (gradientImage 5 5) Image.empty =
      applyConvolutionFilter (refBackend (gradientImage 5 5)) 8 (gradientImage 5 5) Image.empty ∧
    applyConvolutionFilter (refBackend (gradientImage 5 5)) (-1) (gradientImage 5 5) Image.empty =
      applyConvolutionFilter (refBackend (gradientImage 5 5)) 8 (gradientImage 5 5) Image.empty :=
  ⟨((applyConvolutionFilter_catalog (refBackend (gradientImage 5 5)) (gradientImage 5 5)
      Image.empty).2.2.2.2.2.2.2.2.2.2 99 (Or.inr (by decide))).1,
   ((applyConvolutionFilter_catalog (refBackend (gradientImage 5 5)) (gradientImage 5 5)
      Image.empty).2.2.2.2.2.2.2.2.2.2 (-1) (Or.inl (by decide))).1⟩

/-! ## C4: the effective target width -/

theorem resolveColumns_neg (c W : Int) (h : c < 0) (hmin : -2147483648 < c) :
    resolveColumns c W = |c| := by
  have ha : |c| = -c := abs_of_neg h
  simp only [resolveColumns, h, if_true]
  rw [ha]
  exact wrapInt32_of_fits _ (by omega) (by omega)

theorem resolveColumns_zero (W : Int) : resolveColumns 0 W = W := by
  simp [resolveColumns]

theorem resolveColumns_pos (c W : Int) (h : 0 < c) : resolveColumns c W = c := by
  have h1 : ¬ c < 0 := by omega
  have h2 : c ≠ 0 := by omega
  simp [resolveColumns, h1, h2]

theorem resolveColumns_symm (n W : Int) (h : 0 < n) (hmax : n ≤ 2147483647) :
    resolveColumns (-n) W = resolveColumns n W := by
  rw [resolveColumns_pos n W h, resolveColumns_neg (-n) W (by omega) (by omega), abs_neg,
    abs_of_pos h]

theorem resolveColumns_idem (c W : Int) (hmin : -2147483648 < c) (hW : 0 ≤ W) :
    resolveColumns (resolveColumns c W) W = resolveColumns c W := by
  rcases lt_trichotomy c 0 with h | h | h
  · rw [resolveColumns_neg c W h hmin, abs_of_neg h]
    exact resolveColumns_pos _ _ (by omega)
  · rw [h, resolveColumns_zero]
    rcases eq_or_lt_of_le hW with h0 | h0
    · rw [← h0]; exact resolveColumns_zero _
    · exact resolveColumns_pos _ _ h0
  · rw [resolveColumns_pos c W h]
    exact resolveColumns_pos _ _ h

theorem imageASCIIArt_resolved (B : Backend) (imagePath : String) (img : Image)
    (outColumns filter : Int) (asciiPattern : List Char)
    (hmin : -2147483648 < outColumns)
    (hL : B.loadImage imagePath = LoadResult.loaded img) :
    imageASCIIArt B imagePath outColumns filter asciiPattern =
      imageASCIIArt B imagePath (resolveColumns outColumns (img.width : Int)) filter
        asciiPattern := by
  simp only [imageASCIIArt, getCPUandDeviceImage, hL,
    resolveColumns_idem outColumns (img.width : Int) hmin (by omega)]

/-- C4, the claim as stated fails at `outColumns = -2147483648`, a value that `main`
reads with `stoi`: the absolute value computed on `int` is -2147483648 again, so the
resolved width is negative; on a 6 x 5 source the run takes the downscale branch, asks
the resample stage for the extent -2147483648 x -1789569792 and returns false. -/
theorem resolveColumns_int_min_counterexample :
    resolveColumns (-2147483648) 100 = -2147483648 ∧
    ¬ (resolveColumns (-2147483648) 100 = |(-2147483648 : Int)|) ∧
    resizeRequests
      (imageASCIIArt (refBackend (gradientImage 6 5)) "g.pgm" (-2147483648) 0 []).calls
      = [⟨-2147483648, -1789569792⟩] ∧
    (imageASCIIArt (refBackend (gradientImage 6 5)) "g.pgm" (-2147483648) 0 []).ret
      = some false := by
  have h : resolveColumns (-2147483648) 100 = -2147483648 := by
    simp only [resolveColumns, wrapInt32]
    norm_num
  refine ⟨h, ?_, by decide, by decide⟩
  rw [h]
  norm_num

/-- C4 as amended: for every `outColumns` that is an `int` other than `INT_MIN`
(-2147483648), the effective target width of `imageASCIIArt` is the absolute value of
`outColumns` when that is negative, the width of the source image as loaded (before
filtering) when it is zero, and `outColumns` itself otherwise: the run for
`outColumns` is the run for the resolved width, and the run for 0 is the run for the
width of the loaded image; `outColumns = -40` on a source of width 100 gives 40; for
every `n > 0` the requests `n` and `-n` resolve to the same width and the two runs
coincide. -/
theorem resolveColumns_spec (outColumns srcWidth : Int) (hmin : -2147483648 < outColumns)
    (hmax : outColumns ≤ 2147483647) :
    (outColumns < 0 → resolveColumns outColumns srcWidth = |outColumns|) ∧
    (outColumns = 0 → resolveColumns outColumns srcWidth = srcWidth) ∧
    (0 < outColumns → resolveColumns outColumns srcWidth = outColumns) ∧
    resolveColumns (-40) 100 = 40 ∧
    (0 < outColumns →
      resolveColumns (-outColumns) srcWidth = resolveColumns outColumns srcWidth ∧
      ∀ (B : Backend) (imagePath : String) (filter : Int) (asciiPattern : List Char),
        imageASCIIArt B imagePath (-outColumns) filter asciiPattern =
          imageASCIIArt B imagePath outColumns filter asciiPattern) ∧
    (∀ (B : Backend) (imagePath : String) (img : Image) (filter : Int)
        (asciiPattern : List Char), B.loadImage imagePath = LoadResult.loaded img →
      imageASCIIArt B imagePath outColumns filter asciiPattern =
        imageASCIIArt B imagePath (resolveColumns outColumns (img.width : Int)) filter
          asciiPattern ∧
      imageASCIIArt B imagePath 0 filter asciiPattern =
        imageASCIIArt B imagePath (img.width : Int) filter asciiPattern) := by
  refine ⟨fun h => resolveColumns_neg _ _ h hmin, ?_, resolveColumns_pos _ _, ?_, ?_, ?_⟩
  · intro h; rw [h]; exact resolveColumns_zero _
  · exact resolveColumns_neg (-40) 100 (by decide) (by decide)
  · intro h
    refine ⟨resolveColumns_symm _ _ h hmax, ?_⟩
    intro B imagePath filter asciiPattern
    simp only [imageASCIIArt, resolveColumns_symm _ _ h hmax]
  · intro B imagePath img filter asciiPattern hL
    refine ⟨imageASCIIArt_resolved B imagePath img outColumns filter asciiPattern hmin hL,
      ?_⟩
    have := imageASCIIArt_resolved B imagePath img 0 filter asciiPattern (by decide) hL
    rw [resolveColumns_zero] at this
    exact this

/-- Witness of the amended C4 at `outColumns = 7`, `-7` and `0` on a source of width
13. -/
theorem resolveColumns_spec_witness :
    resolveColumns (-7) 13 = resolveColumns 7 13 ∧ resolveColumns 7 13 = 7 ∧
    resolveColumns (-7) 13 = |(-7 : Int)| ∧ resolveColumns 0 13 = 13 ∧
    (imageASCIIArt (refBackend (gradientImage 13 13)) "teapot.pgm" (-7) 0 []).cout =
      (imageASCIIArt (refBackend (gradientImage 13 13)) "teapot.pgm" 7 0 []).cout ∧
    imageASCIIArt (refBackend (gradientImage 13 13)) "teapot.pgm" 0 0 [] =
      imageASCIIArt (refBackend (gradientImage 13 13)) "teapot.pgm" 13 0 [] :=
  ⟨((resolveColumns_spec 7 13 (by decide) (by decide)).2.2.2.2.1 (by decide)).1,
   (resolveColumns_spec 7 13 (by decide) (by decide)).2.2.1 (by decide),
   (resolveColumns_spec (-7) 13 (by decide) (by decide)).1 (by decide),
   (resolveColumns_spec 0 13 (by decide) (by decide)).2.1 rfl,
   congrArg Run.cout (((resolveColumns_spec 7 13 (by decide) (by decide)).2.2.2.2.1
     (by decide)).2 (refBackend (gradientImage 13 13)) "teapot.pgm" 0 []),
   ((resolveColumns_spec 0 13 (by decide) (by decide)).2.2.2.2.2
     (refBackend (gradientImage 13 13)) "teapot.pgm" (gradientImage 13 13) 0 [] rfl).2⟩

/-! ## C8: the extent of the convolution result -/

theorem convolutionFilter_ok (B : Backend) (src dst : Image) (kernel : List Int)
    (kernelSize : NppiSize) (anchor : NppiPoint) (divisor : Int)
    (hA : B.deviceAlloc ((src.width : Int) - kernelSize.width + 1)
      ((src.height : Int) - kernelSize.height + 1) = true)
    (hF : B.cudaFree = true) :
    convolutionFilter B src dst kernel kernelSize anchor divisor =
      ⟨some NppStatus.NPP_NO_ERROR, src,
        ⟨((src.width : Int) - kernelSize.width + 1).toNat,
         ((src.height : Int) - kernelSize.height + 1).toNat,
         (B.nppiFilter src ⟨(src.width : Int) - kernelSize.width + 1,
            (src.height : Int) - kernelSize.height + 1⟩ kernel kernelSize anchor divisor).2⟩,
        [Call.deviceAlloc ((src.width : Int) - kernelSize.width + 1)
           ((src.height : Int) - kernelSize.height + 1),
         Call.nppiFilter ⟨(src.width : Int) - kernelSize.width + 1,
            (src.height : Int) - kernelSize.height + 1⟩ kernel kernelSize anchor divisor,
         Call.cudaFree]⟩ := by
  simp [convolutionFilter, hA, hF]

theorem convolutionFilter_src (B : Backend) (src dst : Image) (kernel : List Int)
    (kernelSize : NppiSize) (anchor : NppiPoint) (divisor : Int) :
    (convolutionFilter B src dst kernel kernelSize anchor divisor).src = src := by
  simp only [convolutionFilter]
  split_ifs <;> rfl

/-- Every branch of `applyConvolutionFilter` is `convolutionFilter` with the selected
weights, kernel size 3 x 3, anchor (2, 2) and divisor 1. -/
theorem applyConvolutionFilter_shape (B : Backend) (filter : Int) (src dst : Image) :
    applyConvolutionFilter B filter src dst =
      convolutionFilter B src dst (selectedKernel filter) ⟨3, 3⟩ ⟨2, 2⟩ 1 := by
  unfold applyConvolutionFilter selectedKernel SobelXFilter SobelYFilter ScharrXFilter
    ScharrYFilter ScharrXImprovedFilter ScharrYImprovedFilter KayaliXFilter KayaliYFilter
    PrewittXFilter PrewittYFilter
  by_cases h0 : filter = SOBEL_X
  · rw [if_pos h0, if_pos h0]
  rw [if_neg h0, if_neg h0]
  by_cases h1 : filter = SOBEL_Y
  · rw [if_pos h1, if_pos h1]
  rw [if_neg h1, if_neg h1]
  by_cases h2 : filter = SCHARR_X
  · rw [if_pos h2, if_pos h2]
  rw [if_neg h2, if_neg h2]
  by_cases h3 : filter = SCHARR_Y
  · rw [if_pos h3, if_pos h3]
  rw [if_neg h3, if_neg h3]
  by_cases h4 : filter = SCHARR_X_IMPROVED
  · rw [if_pos h4, if_pos h4]
  rw [if_neg h4, if_neg h4]
  by_cases h5 : filter = SCHARR_Y_IMPROVED
  · rw [if_pos h5, if_pos h5]
  rw [if_neg h5, if_neg h5]
  by_cases h6 : filter = KAYALI_X
  · rw [if_pos h6, if_pos h6]
  rw [if_neg h6, if_neg h6]
  by_cases h7 : filter = KAYALI_Y
  · rw [if_pos h7, if_pos h7]
  rw [if_neg h7, if_neg h7]
  by_cases h8 : filter = PREWITT_X
  · rw [if_pos h8, if_pos h8]
  rw [if_neg h8, if_neg h8]
  by_cases h9 : filter = PREWITT_Y
  · rw [if_pos h9, if_pos h9]
  rw [if_neg h9, if_neg h9]

/-- C8: for a source of size `W x H` and a kernel of size `K x K` (with `K ≤ W + 1` and
`K ≤ H + 1`, so that the extent is a size), `convolutionFilter` requests and, when the
allocation and `cudaFree` succeed, stores a destination of size
`(W-K+1) x (H-K+1)`; with each of the eleven branches of `applyConvolutionFilter` and
`W, H ≥ 3` the destination is `(W-2) x (H-2)`, smaller than the source in both
dimensions; the source image is the same after the call. -/
theorem convolutionFilter_extent (B : Backend) (src dst : Image) (kernel : List Int)
    (K : Nat) (anchor : NppiPoint) (divisor : Int)
    (hW : K ≤ src.width + 1) (hH : K ≤ src.height + 1)
    (hA : B.deviceAlloc ((src.width : Int) - K + 1) ((src.height : Int) - K + 1) = true)
    (hF : B.cudaFree = true) :
    (convolutionFilter B src dst kernel ⟨K, K⟩ anchor divisor).status
      = some NppStatus.NPP_NO_ERROR ∧
    (convolutionFilter B src dst kernel ⟨K, K⟩ anchor divisor).dst.width
      = src.width + 1 - K ∧
    (convolutionFilter B src dst kernel ⟨K, K⟩ anchor divisor).dst.height
      = src.height + 1 - K ∧
    (convolutionFilter B src dst kernel ⟨K, K⟩ anchor divisor).src = src ∧
    (K = 3 → 3 ≤ src.width → 3 ≤ src.height → ∀ filter : Int,
      (applyConvolutionFilter B filter src dst).status = some NppStatus.NPP_NO_ERROR ∧
      (applyConvolutionFilter B filter src dst).dst.width = src.width - 2 ∧
      (applyConvolutionFilter B filter src dst).dst.height = src.height - 2 ∧
      (applyConvolutionFilter B filter src dst).dst.width < src.width ∧
      (applyConvolutionFilter B filter src dst).dst.height < src.height ∧
      (applyConvolutionFilter B filter src dst).src = src) := by
  have e := convolutionFilter_ok B src dst kernel ⟨K, K⟩ anchor divisor hA hF
  refine ⟨by rw [e], ?_, ?_, convolutionFilter_src _ _ _ _ _ _ _, ?_⟩
  · rw [e]; show ((src.width : Int) - K + 1).toNat = _; omega
  · rw [e]; show ((src.height : Int) - K + 1).toNat = _; omega
  · intro hK h3w h3h filter
    subst hK
    have e3 := convolutionFilter_ok B src dst (selectedKernel filter) ⟨3, 3⟩ ⟨2, 2⟩ 1 hA hF
    rw [applyConvolutionFilter_shape B filter src dst, e3]
    refine ⟨rfl, ?_, ?_, ?_, ?_, rfl⟩
    · show ((src.width : Int) - 3 + 1).toNat = _; omega
    · show ((src.height : Int) - 3 + 1).toNat = _; omega
    · show ((src.width : Int) - 3 + 1).toNat < _; omega
    · show ((src.height : Int) - 3 + 1).toNat < _; omega

/-- Witness of C8: a 7 x 5 gradient image under the 3 x 3 Sobel-X weights. -/
theorem convolutionFilter_extent_witness :
    (convolutionFilter (refBackend (gradientImage 7 5)) (gradientImage 7 5) Image.empty
      [-1, 0, 1, -2, 0, 2, -1, 0, 1] ⟨3, 3⟩ ⟨2, 2⟩ 1).dst.width = 5 ∧
    (convolutionFilter (refBackend (gradientImage 7 5)) (gradientImage 7 5) Image.empty
      [-1, 0, 1, -2, 0, 2, -1, 0, 1] ⟨3, 3⟩ ⟨2, 2⟩ 1).dst.height = 3 ∧
    (applyConvolutionFilter (refBackend (gradientImage 7 5)) 4 (gradientImage 7 5)
      Image.empty).dst.width = 5 :=
  ⟨(convolutionFilter_extent (refBackend (gradientImage 7 5)) (gradientImage 7 5)
      Image.empty [-1, 0, 1, -2, 0, 2, -1, 0, 1] 3 ⟨2, 2⟩ 1 (by decide) (by decide)
      (by decide) rfl).2.1,
   (convolutionFilter_extent (refBackend (gradientImage 7 5)) (gradientImage 7 5)
      Image.empty [-1, 0, 1, -2, 0, 2, -1, 0, 1] 3 ⟨2, 2⟩ 1 (by decide) (by decide)
      (by decide) rfl).2.2.1,
   ((convolutionFilter_extent (refBackend (gradientImage 7 5)) (gradientImage 7 5)
      Image.empty [-1, 0, 1, -2, 0, 2, -1, 0, 1] 3 ⟨2, 2⟩ 1 (by decide) (by decide)
      (by decide) rfl).2.2.2.2 rfl (by decide) (by decide) 4).2.1⟩

/-! ## C10: the anchor -/

theorem anchorsPassed_convolutionFilter (B : Backend) (src dst : Image) (kernel : List Int)
    (kernelSize : NppiSize) (anchor : NppiPoint) (divisor : Int) :
    anchorsPassed (convolutionFilter B src dst kernel kernelSize anchor divisor).calls =
      if B.deviceAlloc ((src.width : Int) - kernelSize.width + 1)
          ((src.height : Int) - kernelSize.height + 1) = false then []
      else [anchor] := by
  simp only [convolutionFilter]
  split_ifs <;> rfl

/-- C10, the claim as stated fails: for selector 0 on a 4 x 4 image the anchor handed
to the convolution primitive is (2, 2), not the centre (1, 1) of the 3 x 3 grid. -/
theorem anchor_center_counterexample :
    anchorsPassed (applyConvolutionFilter (refBackend (constImage 4 4 0)) 0
      (constImage 4 4 0) Image.empty).calls = [⟨2, 2⟩] ∧
    ¬ (∀ a ∈ anchorsPassed (applyConvolutionFilter (refBackend (constImage 4 4 0)) 0
        (constImage 4 4 0) Image.empty).calls, a = (⟨1, 1⟩ : NppiPoint)) := by
  refine ⟨by decide, ?_⟩
  intro h
  have := h ⟨2, 2⟩ (by decide)
  exact absurd this (by decide)

/-- C10 as amended: each of the ten catalog kernels, and the fallback kernel, is passed
to the convolution with kernel size 3 x 3 and anchor (2, 2), the last cell of the 3 x 3
weight grid (one less than the kernel size in each direction); whenever the primitive
is reached it receives exactly this anchor. -/
theorem anchor_is_last_cell (B : Backend) (filter : Int) (src dst : Image) :
    applyConvolutionFilter B filter src dst =
      convolutionFilter B src dst (selectedKernel filter) ⟨3, 3⟩ ⟨3 - 1, 3 - 1⟩ 1 ∧
    (∀ a ∈ anchorsPassed (applyConvolutionFilter B filter src dst).calls,
      a = (⟨2, 2⟩ : NppiPoint)) ∧
    (B.deviceAlloc ((src.width : Int) - 3 + 1) ((src.height : Int) - 3 + 1) = true →
      anchorsPassed (applyConvolutionFilter B filter src dst).calls = [⟨2, 2⟩]) := by
  refine ⟨applyConvolutionFilter_shape B filter src dst, ?_, ?_⟩
  · intro a ha
    rw [applyConvolutionFilter_shape, anchorsPassed_convolutionFilter] at ha
    split_ifs at ha
    · simp at ha
    · simpa using ha
  · intro hA
    rw [applyConvolutionFilter_shape, anchorsPassed_convolutionFilter]
    simp [hA]

/-- Witness of the amended C10: selector 7 on a 6 x 5 gradient image. -/
theorem anchor_is_last_cell_witness :
    anchorsPassed (applyConvolutionFilter (refBackend (gradientImage 6 5)) 7
      (gradientImage 6 5) Image.empty).calls = [⟨2, 2⟩] :=
  (anchor_is_last_cell (refBackend (gradientImage 6 5)) 7 (gradientImage 6 5)
    Image.empty).2.2 (by decide)

/-! ## C9: a source smaller than the kernel -/

theorem convolutionFilter_refused (B : Backend) (src dst : Image) (kernel : List Int)
    (kernelSize : NppiSize) (anchor : NppiPoint) (divisor : Int)
    (hA : B.deviceAlloc ((src.width : Int) - kernelSize.width + 1)
      ((src.height : Int) - kernelSize.height + 1) = false) :
    convolutionFilter B src dst kernel kernelSize anchor divisor =
      ⟨none, src, dst, [Call.deviceAlloc ((src.width : Int) - kernelSize.width + 1)
        ((src.height : Int) - kernelSize.height + 1)]⟩ := by
  simp [convolutionFilter, hA]

theorem deviceAlloc_undersized (B : Backend) (src : Image) (K : Nat)
    (hS : src.width < K ∨ src.height < K) :
    B.deviceAlloc ((src.width : Int) - K + 1) ((src.height : Int) - K + 1) = false := by
  cases hA : B.deviceAlloc ((src.width : Int) - K + 1) ((src.height : Int) - K + 1) with
  | false => rfl
  | true =>
    have := B.alloc_positive _ _ hA
    omega

theorem imageASCIIArt_refused (B : Backend) (imagePath : String) (img : Image)
    (outColumns filter : Int) (asciiPattern : List Char)
    (hE : B.fsExists imagePath = some true)
    (hL : B.loadImage imagePath = LoadResult.loaded img)
    (hA : B.deviceAlloc ((img.width : Int) - 3 + 1) ((img.height : Int) - 3 + 1) = false) :
    (imageASCIIArt B imagePath outColumns filter asciiPattern).ret = some false ∧
    (imageASCIIArt B imagePath outColumns filter asciiPattern).cout = [] := by
  have hc := convolutionFilter_refused B img Image.empty (selectedKernel filter) ⟨3, 3⟩ ⟨2, 2⟩ 1 hA
  unfold imageASCIIArt
  rw [hE]
  dsimp only
  by_cases hC : getStreamContext B ≠ NPP_SUCCESS
  · rw [if_pos hC]
    exact ⟨rfl, rfl⟩
  · rw [if_neg hC]
    simp [getCPUandDeviceImage, hL, applyConvolutionFilter_shape, hc]

/-- C9, the claim as stated fails on a 2 x 2 source under the Sobel-X kernel: the
destination image asked for has the extent 0 x 0, its construction raises, and
`convolutionFilter` returns no status at all (an exception leaves it); in particular
it returns no status other than `NPP_NO_ERROR`. -/
theorem undersized_status_counterexample :
    (convolutionFilter (refBackend (gradientImage 2 2)) (gradientImage 2 2) Image.empty
      [-1, 0, 1, -2, 0, 2, -1, 0, 1] ⟨3, 3⟩ ⟨2, 2⟩ 1).status = none ∧
    (convolutionFilter (refBackend (gradientImage 2 2)) (gradientImage 2 2) Image.empty
      [-1, 0, 1, -2, 0, 2, -1, 0, 1] ⟨3, 3⟩ ⟨2, 2⟩ 1).calls = [Call.deviceAlloc 0 0] ∧
    ¬ (∃ st, st ≠ NppStatus.NPP_NO_ERROR ∧
        (convolutionFilter (refBackend (gradientImage 2 2)) (gradientImage 2 2) Image.empty
          [-1, 0, 1, -2, 0, 2, -1, 0, 1] ⟨3, 3⟩ ⟨2, 2⟩ 1).status = some st) := by
  refine ⟨by decide, by decide, ?_⟩
  rintro ⟨st, _, h⟩
  have h0 : (convolutionFilter (refBackend (gradientImage 2 2)) (gradientImage 2 2)
    Image.empty [-1, 0, 1, -2, 0, 2, -1, 0, 1] ⟨3, 3⟩ ⟨2, 2⟩ 1).status = none := by decide
  rw [h0] at h
  exact absurd h (by simp)

/-- C9 as amended: for every source with `W < K` or `H < K` the destination image that
`convolutionFilter` asks for has a non-positive width or height (`W-K+1`, `H-K+1`);
its construction fails, `convolutionFilter` returns no status (an exception leaves
it), leaves the destination reference as it was and does not reach the primitive; for
the 3 x 3 catalog kernels `imageASCIIArt`, on a path that exists and loads as this
source, returns false and writes no text. -/
theorem undersized_refused (B : Backend) (src dst : Image) (kernel : List Int) (K : Nat)
    (anchor : NppiPoint) (divisor : Int)
    (hS : src.width < K ∨ src.height < K) :
    ((src.width : Int) - K + 1 ≤ 0 ∨ (src.height : Int) - K + 1 ≤ 0) ∧
    (convolutionFilter B src dst kernel ⟨K, K⟩ anchor divisor).status = none ∧
    (convolutionFilter B src dst kernel ⟨K, K⟩ anchor divisor).dst = dst ∧
    (convolutionFilter B src dst kernel ⟨K, K⟩ anchor divisor).calls =
      [Call.deviceAlloc ((src.width : Int) - K + 1) ((src.height : Int) - K + 1)] ∧
    (K = 3 → ∀ (imagePath : String) (outColumns filter : Int) (asciiPattern : List Char),
      B.fsExists imagePath = some true →
      B.loadImage imagePath = LoadResult.loaded src →
      (imageASCIIArt B imagePath outColumns filter asciiPattern).ret = some false ∧
      (imageASCIIArt B imagePath outColumns filter asciiPattern).cout = []) := by
  have hA := deviceAlloc_undersized B src K hS
  have e := convolutionFilter_refused B src dst kernel ⟨K, K⟩ anchor divisor hA
  refine ⟨by omega, by rw [e], by rw [e], by rw [e], ?_⟩
  intro hK imagePath outColumns filter asciiPattern hE hL
  subst hK
  exact imageASCIIArt_refused B imagePath src outColumns filter asciiPattern hE hL hA

/-- Witness of the amended C9: a 2 x 5 gradient image on the reference backend. -/
theorem undersized_refused_witness :
    (convolutionFilter (refBackend (gradientImage 2 5)) (gradientImage 2 5) Image.empty
      [1, 1, 1, 0, 0, 0, -1, -1, -1] ⟨3, 3⟩ ⟨2, 2⟩ 1).status = none ∧
    (imageASCIIArt (refBackend (gradientImage 2 5)) "small.pgm" 80 8 []).ret = some false ∧
    (imageASCIIArt (refBackend (gradientImage 2 5)) "small.pgm" 80 8 []).cout = [] :=
  ⟨(undersized_refused (refBackend (gradientImage 2 5)) (gradientImage 2 5) Image.empty
      [1, 1, 1, 0, 0, 0, -1, -1, -1] 3 ⟨2, 2⟩ 1 (Or.inl (by decide))).2.1,
   (undersized_refused (refBackend (gradientImage 2 5)) (gradientImage 2 5) Image.empty
      [1, 1, 1, 0, 0, 0, -1, -1, -1] 3 ⟨2, 2⟩ 1 (Or.inl (by decide))).2.2.2.2 rfl
      "small.pgm" 80 8 [] rfl rfl⟩

/-! ## The orchestrator on a source that loads and filters -/

theorem applyConvolutionFilter_ok (B : Backend) (img dst : Image) (filter : Int)
    (hA : B.deviceAlloc ((img.width : Int) - 3 + 1) ((img.height : Int) - 3 + 1) = true)
    (hF : B.cudaFree = true) :
    applyConvolutionFilter B filter img dst =
      ⟨some NppStatus.NPP_NO_ERROR, img, filteredImage B img filter,
        [Call.deviceAlloc ((img.width : Int) - 3 + 1) ((img.height : Int) - 3 + 1),
         Call.nppiFilter ⟨(img.width : Int) - 3 + 1, (img.height : Int) - 3 + 1⟩
           (selectedKernel filter) ⟨3, 3⟩ ⟨2, 2⟩ 1,
         Call.cudaFree]⟩ := by
  rw [applyConvolutionFilter_shape]
  exact convolutionFilter_ok B img dst (selectedKernel filter) ⟨3, 3⟩ ⟨2, 2⟩ 1 hA hF

theorem imageASCIIArt_direct (B : Backend) (imagePath : String) (img : Image)
    (outColumns filter : Int) (asciiPattern : List Char)
    (hE : B.fsExists imagePath = some true) (hC : getStreamContext B = NPP_SUCCESS)
    (hL : B.loadImage imagePath = LoadResult.loaded img)
    (hA : B.deviceAlloc ((img.width : Int) - 3 + 1) ((img.height : Int) - 3 + 1) = true)
    (hF : B.cudaFree = true)
    (hW : resolveColumns outColumns (img.width : Int) = (img.width : Int)) :
    imageASCIIArt B imagePath outColumns filter asciiPattern =
      ⟨some true, outAsciiArt [] (filteredImage B img filter) filter asciiPattern, [],
        filterCalls imagePath img filter ++ [Call.outAsciiArt]⟩ := by
  simp [imageASCIIArt, hE, hC, getCPUandDeviceImage, hL,
    applyConvolutionFilter_ok B img Image.empty filter hA hF, hW, filterCalls]

theorem imageASCIIArt_resized (B : Backend) (imagePath : String) (img : Image)
    (outColumns filter : Int) (asciiPattern : List Char)
    (hE : B.fsExists imagePath = some true) (hC : getStreamContext B = NPP_SUCCESS)
    (hL : B.loadImage imagePath = LoadResult.loaded img)
    (hA : B.deviceAlloc ((img.width : Int) - 3 + 1) ((img.height : Int) - 3 + 1) = true)
    (hF : B.cudaFree = true)
    (hW : resolveColumns outColumns (img.width : Int) ≠ (img.width : Int))
    (dstSize : NppiSize)
    (hS : resizedSize (resolveColumns outColumns (img.width : Int))
      ⟨(img.width : Int), (img.height : Int)⟩
      ⟨((filteredImage B img filter).width : Int), ((filteredImage B img filter).height : Int)⟩
        = dstSize)
    (hA2 : B.deviceAlloc dstSize.width dstSize.height = true)
    (hR : (B.nppiResize (filteredImage B img filter)
      ⟨((filteredImage B img filter).width : Int), ((filteredImage B img filter).height : Int)⟩
      dstSize).1 = NppStatus.NPP_NO_ERROR) :
    imageASCIIArt B imagePath outColumns filter asciiPattern =
      ⟨some true, outAsciiArt [] (resizedImage B (filteredImage B img filter) dstSize) filter
          asciiPattern, [],
        filterCalls imagePath img filter ++ [Call.resizeDeviceImage dstSize,
          Call.deviceAlloc dstSize.width dstSize.height,
          Call.nppiResize ⟨((filteredImage B img filter).width : Int),
            ((filteredImage B img filter).height : Int)⟩ dstSize,
          Call.outAsciiArt]⟩ := by
  simp [imageASCIIArt, hE, hC, getCPUandDeviceImage, hL,
    applyConvolutionFilter_ok B img Image.empty filter hA hF, hW, filterCalls, hS,
    resizeDeviceImage, hA2, hR, resizedImage]

theorem resizeRequests_append (xs ys : List Call) :
    resizeRequests (xs ++ ys) = resizeRequests xs ++ resizeRequests ys := by
  induction xs with
  | nil => rfl
  | cons c cs ih => cases c <;> simp [resizeRequests, ih]

theorem resizeRequests_filterCalls (imagePath : String) (img : Image) (filter : Int) :
    resizeRequests (filterCalls imagePath img filter) = [] := rfl

/-! ## C5: no resampling when the target width is the source width -/

theorem resolveColumns_self (outColumns : Int) (W : Nat) (hW : 0 < W)
    (hfit : W ≤ 2147483647)
    (hO : outColumns = 0 ∨ outColumns = (W : Int) ∨ outColumns = -(W : Int)) :
    resolveColumns outColumns (W : Int) = (W : Int) := by
  rcases hO with h | h | h
  · rw [h]; exact resolveColumns_zero _
  · rw [h]; exact resolveColumns_pos _ _ (by omega)
  · rw [h, resolveColumns_neg _ _ (by omega) (by omega), abs_neg]
    exact abs_of_nonneg (by omega)

theorem render_two_by_two_black (img : Image) (filter : Int) (hw : img.width = 2)
    (hh : img.height = 2) (hz : ∀ x y : Nat, x < 2 → y < 2 → img.pixels x y = 0) :
    outAsciiArt [] img filter [] = "  \n  \n".toList := by
  have h00 := hz 0 0 (by decide) (by decide)
  have h10 := hz 1 0 (by decide) (by decide)
  have h01 := hz 0 1 (by decide) (by decide)
  have h11 := hz 1 1 (by decide) (by decide)
  have hp : patternIndex 0 (wrapInt32 ((defaultPattern.length : Nat) : Int)) = 0 :=
    patternIndex_zero _
  have hc : charAt defaultPattern 0 = ' ' := by decide
  simp [outAsciiArt, asciiRow, hw, hh, List.range_succ, h00, h10, h01, h11, hp, hc]

/-- C5: for every source of size `W x H` with `W, H ≥ 3` that is loaded and filtered
without an error, when `outColumns` is 0, `W` or `-W` (the effective target width is
the source width), `imageASCIIArt` makes no call to the resample stage and renders the
filtered image directly: the text is `H - 2` lines of `W - 2` characters, each line
followed by the terminator; for a 4 x 4 all-zero source, selector 0, `outColumns = 0`
and the default ramp (the filtered pixels being zero) the text is two lines of two
spaces. -/
theorem direct_render_extent (B : Backend) (imagePath : String) (img : Image)
    (outColumns filter : Int) (asciiPattern : List Char)
    (hE : B.fsExists imagePath = some true) (hC : getStreamContext B = NPP_SUCCESS)
    (hL : B.loadImage imagePath = LoadResult.loaded img)
    (hA : B.deviceAlloc ((img.width : Int) - 3 + 1) ((img.height : Int) - 3 + 1) = true)
    (hF : B.cudaFree = true)
    (h3w : 3 ≤ img.width) (h3h : 3 ≤ img.height)
    (hO : outColumns = 0 ∨ outColumns = (img.width : Int) ∨ outColumns = -(img.width : Int)) :
    (imageASCIIArt B imagePath outColumns filter asciiPattern).ret = some true ∧
    (imageASCIIArt B imagePath outColumns filter asciiPattern).calls =
      [Call.getStreamContext, Call.getCPUandDeviceImage imagePath,
        Call.applyConvolutionFilter filter,
        Call.deviceAlloc ((img.width : Int) - 3 + 1) ((img.height : Int) - 3 + 1),
        Call.nppiFilter ⟨(img.width : Int) - 3 + 1, (img.height : Int) - 3 + 1⟩
          (selectedKernel filter) ⟨3, 3⟩ ⟨2, 2⟩ 1,
        Call.cudaFree, Call.outAsciiArt] ∧
    resizeRequests (imageASCIIArt B imagePath outColumns filter asciiPattern).calls = [] ∧
    (imageASCIIArt B imagePath outColumns filter asciiPattern).cout =
      outAsciiArt [] (filteredImage B img filter) filter asciiPattern ∧
    (filteredImage B img filter).width = img.width - 2 ∧
    (filteredImage B img filter).height = img.height - 2 ∧
    (∃ lines : List (List Char), lines.length = img.height - 2 ∧
      (∀ l ∈ lines, l.length = img.width - 2) ∧
      (imageASCIIArt B imagePath outColumns filter asciiPattern).cout =
        (lines.map (fun l => l ++ ['\n'])).flatten) ∧
    (img.width = 4 → img.height = 4 → filter = 0 → outColumns = 0 → asciiPattern = [] →
      (∀ x y : Nat, x < 2 → y < 2 → (B.nppiFilter img ⟨2, 2⟩ [-1, 0, 1, -2, 0, 2, -1, 0, 1]
        ⟨3, 3⟩ ⟨2, 2⟩ 1).2 x y = 0) →
      (imageASCIIArt B imagePath outColumns filter asciiPattern).cout = "  \n  \n".toList) := by
  have hR := resolveColumns_self outColumns img.width (by omega) (B.loaded_fits _ _ hL).1 hO
  have e := imageASCIIArt_direct B imagePath img outColumns filter asciiPattern hE hC hL hA
    hF hR
  have hfw : (filteredImage B img filter).width = img.width - 2 := by
    show ((img.width : Int) - 3 + 1).toNat = _; omega
  have hfh : (filteredImage B img filter).height = img.height - 2 := by
    show ((img.height : Int) - 3 + 1).toNat = _; omega
  refine ⟨by rw [e], by rw [e]; rfl, by rw [e]; rfl, by rw [e], hfw, hfh, ?_, ?_⟩
  · obtain ⟨lines, h1, h2, h3⟩ := outAsciiArt_lines (filteredImage B img filter) filter
      asciiPattern
    refine ⟨lines, by rw [h1, hfh], ?_, by rw [e]; exact h3⟩
    intro l hl
    rw [h2 l hl, hfw]
  · intro hw hh hf _ hp hz
    rw [e]
    show outAsciiArt [] (filteredImage B img filter) filter asciiPattern = _
    rw [hp]
    apply render_two_by_two_black
    · rw [hfw, hw]
    · rw [hfh, hh]
    · intro x y hx hy
      have := hz x y hx hy
      simp only [filteredImage, hw, hh, hf]
      exact this

/-- Witness of C5: the 4 x 4 all-zero source, selector 0, `outColumns = 0`, default ramp,
on the reference backend. -/
theorem direct_render_extent_witness :
    (imageASCIIArt (refBackend (constImage 4 4 0)) "zero.pgm" 0 0 []).ret = some true ∧
    resizeRequests (imageASCIIArt (refBackend (constImage 4 4 0)) "zero.pgm" 0 0 []).calls
      = [] ∧
    (imageASCIIArt (refBackend (constImage 4 4 0)) "zero.pgm" 0 0 []).cout
      = "  \n  \n".toList :=
  ⟨(direct_render_extent (refBackend (constImage 4 4 0)) "zero.pgm" (constImage 4 4 0) 0 0 []
      rfl (by decide) rfl (by decide) rfl (by decide) (by decide) (Or.inl rfl)).1,
   (direct_render_extent (refBackend (constImage 4 4 0)) "zero.pgm" (constImage 4 4 0) 0 0 []
      rfl (by decide) rfl (by decide) rfl (by decide) (by decide) (Or.inl rfl)).2.2.1,
   (direct_render_extent (refBackend (constImage 4 4 0)) "zero.pgm" (constImage 4 4 0) 0 0 []
      rfl (by decide) rfl (by decide) rfl (by decide) (by decide)
      (Or.inl rfl)).2.2.2.2.2.2.2 rfl rfl rfl rfl rfl
      (fun x y hx hy => by interval_cases x <;> interval_cases y <;> rfl)⟩

/-! ## Lemmas on the single-precision arithmetic -/

theorem shiftUp_le : ∀ (f n d k : Nat), d * 2 ^ 23 ≤ n * 2 ^ k → shiftUp f n d ≤ k
  | 0, _, _, _, _ => Nat.zero_le _
  | f + 1, n, d, k, h => by
      unfold shiftUp
      split_ifs with h0
      · exact Nat.zero_le _
      · cases k with
        | zero => exact absurd (by simpa using h) h0
        | succ k =>
          have e : n * 2 ^ (k + 1) = 2 * n * 2 ^ k := by ring
          have := shiftUp_le f (2 * n) d k (by rw [e] at h; exact h)
          omega

theorem shiftUp_spec : ∀ (f n d : Nat), d * 2 ^ 23 ≤ n * 2 ^ f →
    d * 2 ^ 23 ≤ n * 2 ^ shiftUp f n d
  | 0, n, d, h => by simpa [shiftUp] using h
  | f + 1, n, d, h => by
      unfold shiftUp
      split_ifs with h0
      · simpa using h0
      · have e : n * 2 ^ (f + 1) = 2 * n * 2 ^ f := by ring
        have := shiftUp_spec f (2 * n) d (by rw [e] at h; exact h)
        have e2 : n * 2 ^ (shiftUp f (2 * n) d + 1) = 2 * n * 2 ^ shiftUp f (2 * n) d := by
          ring
        rw [e2]; exact this

theorem shiftUp_pos_lt (f n d : Nat) (h : shiftUp f n d ≠ 0) : n < d * 2 ^ 23 := by
  cases f with
  | zero => exact absurd rfl h
  | succ f =>
    unfold shiftUp at h
    split_ifs at h with h0
    · exact absurd rfl h
    · omega

theorem shiftDn_lower : ∀ (f n d : Nat),
    shiftDn f n d = 0 ∨ d * 2 ^ shiftDn f n d * 2 ^ 23 ≤ n
  | 0, _, _ => Or.inl rfl
  | f + 1, n, d => by
      unfold shiftDn
      split_ifs with h0
      · exact Or.inl rfl
      · right
        rcases shiftDn_lower f n (2 * d) with h | h
        · rw [h]
          have : d * 2 ^ (0 + 1) * 2 ^ 23 = d * 2 ^ 24 := by norm_num; ring
          omega
        · have e : d * 2 ^ (shiftDn f n (2 * d) + 1) * 2 ^ 23
              = 2 * d * 2 ^ shiftDn f n (2 * d) * 2 ^ 23 := by rw [pow_succ]; ring
          rw [e]; exact h

theorem shiftDn_upper : ∀ (f n d : Nat), n < d * 2 ^ 24 * 2 ^ f →
    n < d * 2 ^ 24 * 2 ^ shiftDn f n d
  | 0, n, d, h => by simpa [shiftDn] using h
  | f + 1, n, d, h => by
      unfold shiftDn
      split_ifs with h0
      · simpa using h0
      · have e : d * 2 ^ 24 * 2 ^ (f + 1) = 2 * d * 2 ^ 24 * 2 ^ f := by ring
        have := shiftDn_upper f n (2 * d) (by rw [e] at h; exact h)
        have e2 : d * 2 ^ 24 * 2 ^ (shiftDn f n (2 * d) + 1)
            = 2 * d * 2 ^ 24 * 2 ^ shiftDn f n (2 * d) := by ring
        rw [e2]; exact this

theorem rne_ge (N D : Nat) : N / D ≤ rne N D := by
  unfold rne
  split_ifs <;> omega

theorem rne_le (N D : Nat) : rne N D ≤ N / D + 1 := by
  unfold rne
  split_ifs <;> omega

theorem rne_mono (N₁ N₂ D : Nat) (h : N₁ ≤ N₂) : rne N₁ D ≤ rne N₂ D := by
  have hq : N₁ / D ≤ N₂ / D := Nat.div_le_div_right h
  rcases Nat.lt_or_ge (N₁ / D) (N₂ / D) with hlt | hge
  · calc rne N₁ D ≤ N₁ / D + 1 := rne_le _ _
      _ ≤ N₂ / D := hlt
      _ ≤ rne N₂ D := rne_ge _ _
  · have heq : N₁ / D = N₂ / D := le_antisymm hq hge
    have e1 := Nat.div_add_mod N₁ D
    have e2 := Nat.div_add_mod N₂ D
    rw [heq] at e1
    have hr : N₁ % D ≤ N₂ % D := by omega
    unfold rne
    rw [heq]
    split_ifs with c1 c2 c2 <;> omega

theorem rne_one (N : Nat) : rne N 1 = N := by
  simp [rne, Nat.mod_one]

theorem F32.round_ge_one (n d : Nat) (hd : 0 < d) (h : d ≤ n) :
    0 < (F32.round n d).den ∧ (F32.round n d).den ≤ (F32.round n d).num := by
  have hn : n ≠ 0 := by omega
  have hd0 : d ≠ 0 := by omega
  simp only [F32.round, hn, hd0, or_self, if_false]
  refine ⟨by positivity, ?_⟩
  have hup : shiftUp (d + 24) n d ≤ 23 :=
    shiftUp_le _ _ _ 23 (Nat.mul_le_mul_right _ h)
  rcases Nat.eq_zero_or_pos (shiftUp (d + 24) n d) with hu | hu
  · rw [hu]
    simp only [pow_zero, mul_one]
    rcases shiftDn_lower (n + 1) n d with hz | hl
    · rw [hz]
      simp only [pow_zero, mul_one]
      have : 1 ≤ n / d := (Nat.one_le_div_iff hd).mpr h
      exact le_trans this (rne_ge _ _)
    · have hD : 0 < d * 2 ^ shiftDn (n + 1) n d := by positivity
      have : 1 ≤ n / (d * 2 ^ shiftDn (n + 1) n d) := by
        rw [Nat.one_le_div_iff hD]
        have : d * 2 ^ shiftDn (n + 1) n d ≤ d * 2 ^ shiftDn (n + 1) n d * 2 ^ 23 :=
          Nat.le_mul_of_pos_right _ (by positivity)
        omega
      have h1 : 1 ≤ rne n (d * 2 ^ shiftDn (n + 1) n d) := le_trans this (rne_ge _ _)
      have h2 : 1 ≤ 2 ^ shiftDn (n + 1) n d := Nat.one_le_two_pow
      calc 1 = 1 * 1 := rfl
        _ ≤ rne n (d * 2 ^ shiftDn (n + 1) n d) * 2 ^ shiftDn (n + 1) n d :=
          Nat.mul_le_mul h1 h2
  · have hlt : n < d * 2 ^ 23 := shiftUp_pos_lt (d + 24) n d (by omega)
    have hdn : shiftDn (n + 1) n d = 0 := by
      have : n < d * 2 ^ 24 := by
        have : d * 2 ^ 23 ≤ d * 2 ^ 24 := Nat.mul_le_mul_left _ (by norm_num)
        omega
      unfold shiftDn
      rw [if_pos this]
    rw [hdn]
    simp only [pow_zero, mul_one]
    have hfuel : d * 2 ^ 23 ≤ n * 2 ^ (d + 24) := by
      have h1 : d < 2 ^ d := Nat.lt_two_pow d
      have h2 : d * 2 ^ 23 ≤ 2 ^ d * 2 ^ 24 :=
        Nat.mul_le_mul (le_of_lt h1) (by norm_num)
      calc d * 2 ^ 23 ≤ 2 ^ d * 2 ^ 24 := h2
        _ = 1 * 2 ^ (d + 24) := by rw [pow_add]; ring
        _ ≤ n * 2 ^ (d + 24) := Nat.mul_le_mul_right _ (by omega)
    have hs := shiftUp_spec (d + 24) n d hfuel
    have hq : 2 ^ 23 ≤ n * 2 ^ shiftUp (d + 24) n d / d := by
      rw [Nat.le_div_iff_mul_le hd]
      linarith
    calc 2 ^ shiftUp (d + 24) n d ≤ 2 ^ 23 := Nat.pow_le_pow_right (by norm_num) hup
      _ ≤ n * 2 ^ shiftUp (d + 24) n d / d := hq
      _ ≤ rne (n * 2 ^ shiftUp (d + 24) n d) d := rne_ge _ _
theorem F32.ofNat_small (k : Nat) (h1 : 1 ≤ k) (h : k < 2 ^ 24) :
    (F32.ofNat k).num = k * (F32.ofNat k).den ∧ 0 < (F32.ofNat k).den := by
  have hk : k ≠ 0 := by omega
  have hdn : shiftDn (k + 1) k 1 = 0 := by
    unfold shiftDn
    rw [if_pos (by omega)]
  simp only [F32.ofNat, F32.round, hk, one_ne_zero, or_self, if_false, hdn, pow_zero,
    mul_one, rne_one]
  exact ⟨trivial, by positivity⟩

theorem F32.ofNat_large (k : Nat) (h : 2 ^ 24 ≤ k) :
    ∃ j : Nat, 1 ≤ j ∧ 2 ^ 23 * 2 ^ j ≤ k ∧ k < 2 ^ 24 * 2 ^ j ∧
      F32.ofNat k = ⟨rne k (2 ^ j) * 2 ^ j, 1⟩ := by
  have hk : k ≠ 0 := by
    have : 0 < 2 ^ 24 := by norm_num
    omega
  have hup : shiftUp (1 + 24) k 1 = 0 := by
    show shiftUp (24 + 1) k 1 = 0
    unfold shiftUp
    rw [if_pos (by omega)]
  have hj : 1 ≤ shiftDn (k + 1) k 1 := by
    unfold shiftDn
    rw [if_neg (by omega)]
    omega
  have hlo : 2 ^ 23 * 2 ^ shiftDn (k + 1) k 1 ≤ k := by
    rcases shiftDn_lower (k + 1) k 1 with h0 | h0
    · omega
    · calc 2 ^ 23 * 2 ^ shiftDn (k + 1) k 1 = 1 * 2 ^ shiftDn (k + 1) k 1 * 2 ^ 23 := by ring
        _ ≤ k := h0
  have hfuel : k < 1 * 2 ^ 24 * 2 ^ (k + 1) := by
    have h1 : k + 1 < 2 ^ (k + 1) := Nat.lt_two_pow (k + 1)
    have h2 : 2 ^ (k + 1) ≤ 1 * 2 ^ 24 * 2 ^ (k + 1) :=
      Nat.le_mul_of_pos_left _ (by norm_num)
    omega
  have hhi : k < 2 ^ 24 * 2 ^ shiftDn (k + 1) k 1 := by
    have := shiftDn_upper (k + 1) k 1 hfuel
    simpa using this
  refine ⟨shiftDn (k + 1) k 1, hj, hlo, hhi, ?_⟩
  simp only [F32.ofNat, F32.round, hk, one_ne_zero, or_self, if_false, hup, pow_zero,
    mul_one, one_mul]

theorem large_lower (k j : Nat) (hlo : 2 ^ 23 * 2 ^ j ≤ k) :
    2 ^ 23 * 2 ^ j ≤ rne k (2 ^ j) * 2 ^ j := by
  have hq : 2 ^ 23 ≤ k / 2 ^ j := by
    rw [Nat.le_div_iff_mul_le (by positivity)]
    exact hlo
  exact Nat.mul_le_mul_right _ (le_trans hq (rne_ge _ _))

theorem large_upper (k j : Nat) (hhi : k < 2 ^ 24 * 2 ^ j) :
    rne k (2 ^ j) * 2 ^ j ≤ 2 ^ 24 * 2 ^ j := by
  have hq : k / 2 ^ j < 2 ^ 24 := by
    rw [Nat.div_lt_iff_lt_mul (by positivity)]
    exact hhi
  exact Nat.mul_le_mul_right _ (le_trans (rne_le _ _) hq)

theorem F32.ofNat_mono (a b : Nat) (ha : 1 ≤ a) (hab : a ≤ b) :
    (F32.ofNat a).num * (F32.ofNat b).den ≤ (F32.ofNat b).num * (F32.ofNat a).den := by
  rcases Nat.lt_or_ge b (2 ^ 24) with hb | hb
  · obtain ⟨ea, _⟩ := F32.ofNat_small a ha (by omega)
    obtain ⟨eb, _⟩ := F32.ofNat_small b (by omega) hb
    rw [ea, eb]
    calc a * (F32.ofNat a).den * (F32.ofNat b).den
        ≤ b * (F32.ofNat a).den * (F32.ofNat b).den :=
          Nat.mul_le_mul_right _ (Nat.mul_le_mul_right _ hab)
      _ = b * (F32.ofNat b).den * (F32.ofNat a).den := by ring
  · obtain ⟨jb, hjb, hlob, hhib, eb⟩ := F32.ofNat_large b hb
    have hLb := large_lower b jb hlob
    rcases Nat.lt_or_ge a (2 ^ 24) with hsa | hla
    · obtain ⟨ea, _⟩ := F32.ofNat_small a ha hsa
      rw [ea, eb]
      have h2 : 2 ^ 24 ≤ 2 ^ 23 * 2 ^ jb := by
        have : 2 ^ 1 ≤ 2 ^ jb := Nat.pow_le_pow_right (by norm_num) hjb
        calc 2 ^ 24 = 2 ^ 23 * 2 ^ 1 := by norm_num
          _ ≤ 2 ^ 23 * 2 ^ jb := Nat.mul_le_mul_left _ this
      have h3 : a ≤ rne b (2 ^ jb) * 2 ^ jb := by omega
      simp only [mul_one]
      exact Nat.mul_le_mul_right _ h3
    · obtain ⟨ja, _, hloa, hhia, ea⟩ := F32.ofNat_large a hla
      rw [ea, eb]
      simp only [mul_one]
      rcases Nat.lt_trichotomy ja jb with hlt | heq | hgt
      · have hUa := large_upper a ja hhia
        have : 2 ^ 24 * 2 ^ ja ≤ 2 ^ 23 * 2 ^ jb := by
          have h1 : 2 ^ (ja + 1) ≤ 2 ^ jb := Nat.pow_le_pow_right (by norm_num) hlt
          calc 2 ^ 24 * 2 ^ ja = 2 ^ 23 * 2 ^ (ja + 1) := by ring
            _ ≤ 2 ^ 23 * 2 ^ jb := Nat.mul_le_mul_left _ h1
        omega
      · subst heq
        exact Nat.mul_le_mul_right _ (rne_mono _ _ _ hab)
      · exfalso
        have h1 : 2 ^ (jb + 1) ≤ 2 ^ ja := Nat.pow_le_pow_right (by norm_num) hgt
        have h2 : 2 ^ 24 * 2 ^ jb ≤ 2 ^ 23 * 2 ^ ja := by
          calc 2 ^ 24 * 2 ^ jb = 2 ^ 23 * 2 ^ (jb + 1) := by ring
            _ ≤ 2 ^ 23 * 2 ^ ja := Nat.mul_le_mul_left _ h1
        omega

theorem F32.ofNat_pos (k : Nat) (h : 1 ≤ k) :
    0 < (F32.ofNat k).den ∧ 0 < (F32.ofNat k).num := by
  have := F32.round_ge_one k 1 (by norm_num) h
  exact ⟨this.1, lt_of_lt_of_le this.1 this.2⟩

theorem F32.div_ofNat_not_lt_one (c W : Nat) (hW : 1 ≤ W) (h : W ≤ c) :
    F32.lt (F32.div (F32.ofNat c) (F32.ofNat W)) (F32.ofNat 1) = false := by
  obtain ⟨hdc, _⟩ := F32.ofNat_pos c (by omega)
  obtain ⟨_, hnW⟩ := F32.ofNat_pos W hW
  have hm := F32.ofNat_mono W c hW h
  have hge := F32.round_ge_one ((F32.ofNat c).num * (F32.ofNat W).den)
    ((F32.ofNat c).den * (F32.ofNat W).num) (by positivity) (by
      calc (F32.ofNat c).den * (F32.ofNat W).num = (F32.ofNat W).num * (F32.ofNat c).den := by
            ring
        _ ≤ (F32.ofNat c).num * (F32.ofNat W).den := hm)
  have hone : F32.ofNat 1 = ⟨8388608, 8388608⟩ := by decide
  unfold F32.lt F32.div
  rw [hone]
  have h1 : (F32.round ((F32.ofNat c).num * (F32.ofNat W).den)
      ((F32.ofNat c).den * (F32.ofNat W).num)).den ≠ 0 := by omega
  simp only [h1, if_false]
  simp only [show (8388608 : Nat) ≠ 0 by norm_num, if_false, decide_eq_false_iff_not, not_lt]
  have := hge.2
  omega

theorem F32.div_ofNat_den_pos (c W : Nat) (hW : 1 ≤ W) (h : W ≤ c) :
    0 < (F32.div (F32.ofNat c) (F32.ofNat W)).den := by
  obtain ⟨hdc, _⟩ := F32.ofNat_pos c (by omega)
  obtain ⟨_, hnW⟩ := F32.ofNat_pos W hW
  have hm := F32.ofNat_mono W c hW h
  exact (F32.round_ge_one ((F32.ofNat c).num * (F32.ofNat W).den)
    ((F32.ofNat c).den * (F32.ofNat W).num) (by positivity) (by
      calc (F32.ofNat c).den * (F32.ofNat W).num = (F32.ofNat W).num * (F32.ofNat c).den := by
            ring
        _ ≤ (F32.ofNat c).num * (F32.ofNat W).den := hm)).1

theorem SF32.ofInt_nonneg (c : Int) (h : 0 ≤ c) : SF32.ofInt c = ⟨false, F32.ofNat c.toNat⟩ := by
  have h1 : ¬ c < 0 := by omega
  have h2 : c.natAbs = c.toNat := by omega
  simp [SF32.ofInt, h1, h2]

theorem SF32.div_ofInt_not_lt_one (c : Int) (W : Nat) (hW : 1 ≤ W) (h : (W : Int) ≤ c) :
    SF32.lt (SF32.div (SF32.ofInt c) (SF32.ofInt (W : Int))) (SF32.ofInt 1) = false := by
  have hc : W ≤ c.toNat := by omega
  have hden := F32.div_ofNat_den_pos c.toNat W hW hc
  have hlt := F32.div_ofNat_not_lt_one c.toNat W hW hc
  have hone : (F32.ofNat 1).isNaN = false := by decide
  have hnan : (F32.div (F32.ofNat c.toNat) (F32.ofNat W)).isNaN = false := by
    simp only [F32.isNaN, decide_eq_false_iff_not, not_and]
    intro _
    omega
  rw [SF32.ofInt_nonneg c (by omega), SF32.ofInt_nonneg (W : Int) (by omega),
    SF32.ofInt_nonneg 1 (by decide)]
  simp only [Int.toNat_ofNat, Int.toNat_one, SF32.lt, SF32.div, hnan, hone, hlt, bne_self_eq_false,
    Bool.or_self, Bool.false_eq_true, if_false]

theorem resizedSize_upscale (c : Int) (W H : Nat) (oDstSize : NppiSize) (hW : 1 ≤ W)
    (h : (W : Int) ≤ c) :
    resizedSize c ⟨(W : Int), (H : Int)⟩ oDstSize = oDstSize := by
  unfold resizedSize
  simp only [SF32.div_ofInt_not_lt_one c W hW h, Bool.false_eq_true, if_false]

/-! ## The rounding of `F32.round` is the correct one -/

theorem shiftUp_least : ∀ (f n d k : Nat), shiftUp f n d = k + 1 → n * 2 ^ k < d * 2 ^ 23
  | 0, _, _, _, h => by simp [shiftUp] at h
  | f + 1, n, d, k, h => by
      unfold shiftUp at h
      split_ifs at h with h0
      have h1 : shiftUp f (2 * n) d = k := by omega
      cases k with
      | zero => simpa using Nat.lt_of_not_le h0
      | succ k =>
        have := shiftUp_least f (2 * n) d k h1
        have e : n * 2 ^ (k + 1) = 2 * n * 2 ^ k := by ring
        rw [e]; exact this

/-- The value `rne N D` is an integer nearest to `N / D`: twice its distance to `N / D`
is at most 1, and at a tie it is even. -/
theorem rne_nearest (N D : Nat) (hD : 0 < D) :
    2 * (rne N D * D) ≤ 2 * N + D ∧ 2 * N ≤ 2 * (rne N D * D) + D ∧
    (2 * (N % D) = D → rne N D % 2 = 0) := by
  have e := Nat.div_add_mod N D
  have hr := Nat.mod_lt N hD
  have hc : D * (N / D) = N / D * D := Nat.mul_comm _ _
  unfold rne
  split_ifs with c
  · have e2 : (N / D + 1) * D = N / D * D + D := by ring
    rw [e2]
    refine ⟨by omega, by omega, ?_⟩
    intro ht
    rcases c with c | c <;> omega
  · refine ⟨by omega, by omega, ?_⟩
    intro ht
    have : ¬ (N / D % 2 = 1) := fun h1 => c (Or.inr ⟨ht, h1⟩)
    omega

/-- The fraction that `F32.round` hands to `rne` has a 24-bit integer part: with
`N = n * 2^up` and `D = d * 2^dn` as in the definition, `2^23 ≤ N / D < 2^24`. Together
with `rne_nearest` this makes `F32.round n d` the 24-bit value nearest to `n / d`. -/
theorem F32.round_scaled (n d : Nat) (hn : 0 < n) (hd : 0 < d) :
    d * 2 ^ shiftDn (n + 1) n d * 2 ^ 23 ≤ n * 2 ^ shiftUp (d + 24) n d ∧
    n * 2 ^ shiftUp (d + 24) n d < d * 2 ^ shiftDn (n + 1) n d * 2 ^ 24 ∧
    F32.round n d = ⟨rne (n * 2 ^ shiftUp (d + 24) n d) (d * 2 ^ shiftDn (n + 1) n d)
      * 2 ^ shiftDn (n + 1) n d, 2 ^ shiftUp (d + 24) n d⟩ := by
  have hfuel : d * 2 ^ 23 ≤ n * 2 ^ (d + 24) := by
    have h1 : d < 2 ^ d := Nat.lt_two_pow d
    have h2 : d * 2 ^ 23 ≤ 2 ^ d * 2 ^ 24 := Nat.mul_le_mul (le_of_lt h1) (by norm_num)
    calc d * 2 ^ 23 ≤ 2 ^ d * 2 ^ 24 := h2
      _ = 1 * 2 ^ (d + 24) := by rw [pow_add]; ring
      _ ≤ n * 2 ^ (d + 24) := Nat.mul_le_mul_right _ (by omega)
  have hs := shiftUp_spec (d + 24) n d hfuel
  have hfuel2 : n < d * 2 ^ 24 * 2 ^ (n + 1) := by
    have h1 : n + 1 < 2 ^ (n + 1) := Nat.lt_two_pow (n + 1)
    have h2 : 2 ^ (n + 1) ≤ d * 2 ^ 24 * 2 ^ (n + 1) :=
      Nat.le_mul_of_pos_left _ (by positivity)
    omega
  have hu := shiftDn_upper (n + 1) n d hfuel2
  refine ⟨?_, ?_, ?_⟩
  · rcases Nat.eq_zero_or_pos (shiftUp (d + 24) n d) with h0 | h0
    · rw [h0] at hs ⊢
      rcases shiftDn_lower (n + 1) n d with hz | hl
      · rw [hz]; simpa using hs
      · simpa using hl
    · have hlt : n < d * 2 ^ 23 := shiftUp_pos_lt (d + 24) n d (by omega)
      have hdn : shiftDn (n + 1) n d = 0 := by
        have : n < d * 2 ^ 24 := by
          have : d * 2 ^ 23 ≤ d * 2 ^ 24 := Nat.mul_le_mul_left _ (by norm_num)
          omega
        unfold shiftDn
        rw [if_pos this]
      rw [hdn]; simpa using hs
  · rcases Nat.eq_zero_or_pos (shiftUp (d + 24) n d) with h0 | h0
    · rw [h0]
      have e : d * 2 ^ shiftDn (n + 1) n d * 2 ^ 24 = d * 2 ^ 24 * 2 ^ shiftDn (n + 1) n d := by
        ring
      rw [e]; simpa using hu
    · have hlt : n < d * 2 ^ 23 := shiftUp_pos_lt (d + 24) n d (by omega)
      have hdn : shiftDn (n + 1) n d = 0 := by
        have : n < d * 2 ^ 24 := by
          have : d * 2 ^ 23 ≤ d * 2 ^ 24 := Nat.mul_le_mul_left _ (by norm_num)
          omega
        unfold shiftDn
        rw [if_pos this]
      rw [hdn]
      obtain ⟨k, hk⟩ : ∃ k, shiftUp (d + 24) n d = k + 1 := ⟨_, (Nat.succ_pred_eq_of_pos h0).symm⟩
      have hl := shiftUp_least (d + 24) n d k hk
      rw [hk]
      have e1 : n * 2 ^ (k + 1) = 2 * (n * 2 ^ k) := by ring
      have e2 : d * 2 ^ 0 * 2 ^ 24 = 2 * (d * 2 ^ 23) := by norm_num; ring
      rw [e1, e2]
      omega
  · have hn0 : n ≠ 0 := by omega
    have hd0 : d ≠ 0 := by omega
    simp only [F32.round, hn0, hd0, or_self, if_false]

/-! ## C6 and C7: the extent asked of the resample stage -/

theorem filteredImage_width (B : Backend) (img : Image) (filter : Int) (h : 3 ≤ img.width) :
    ((filteredImage B img filter).width : Int) = (img.width : Int) - 2 := by
  show ((((img.width : Int) - 3 + 1).toNat : Nat) : Int) = _
  omega

theorem filteredImage_height (B : Backend) (img : Image) (filter : Int)
    (h : 3 ≤ img.height) :
    ((filteredImage B img filter).height : Int) = (img.height : Int) - 2 := by
  show ((((img.height : Int) - 3 + 1).toNat : Nat) : Int) = _
  omega

theorem resizeRequests_resizeDeviceImage (B : Backend) (src : Image) (dstSize : NppiSize)
    (dst : Image) : resizeRequests (resizeDeviceImage B src dstSize dst).calls = [] := by
  simp only [resizeDeviceImage]
  split_ifs <;> rfl

/-- The extent asked of the resample stage whenever the source loads and filters and
the resolved width differs from the source width, whatever the stage answers. -/
theorem imageASCIIArt_resize_request (B : Backend) (imagePath : String) (img : Image)
    (outColumns filter : Int) (asciiPattern : List Char)
    (hE : B.fsExists imagePath = some true) (hC : getStreamContext B = NPP_SUCCESS)
    (hL : B.loadImage imagePath = LoadResult.loaded img)
    (hA : B.deviceAlloc ((img.width : Int) - 3 + 1) ((img.height : Int) - 3 + 1) = true)
    (hF : B.cudaFree = true)
    (hW : resolveColumns outColumns (img.width : Int) ≠ (img.width : Int)) :
    resizeRequests (imageASCIIArt B imagePath outColumns filter asciiPattern).calls =
      [resizedSize (resolveColumns outColumns (img.width : Int))
        ⟨(img.width : Int), (img.height : Int)⟩
        ⟨((filteredImage B img filter).width : Int),
          ((filteredImage B img filter).height : Int)⟩] := by
  simp only [imageASCIIArt, hE, hC, getCPUandDeviceImage, hL,
    applyConvolutionFilter_ok B img Image.empty filter hA hF, hW]
  simp only [Bool.true_eq_false, if_false, ne_eq, not_true_eq_false]
  split
  · simp [resizeRequests_append, resizeRequests, resizeRequests_resizeDeviceImage]
  · split_ifs <;>
      simp [resizeRequests_append, resizeRequests, resizeRequests_resizeDeviceImage]

/-- C7: for every source of size `W x H` with `W, H ≥ 3` that loads and filters without
an error, and every request `outColumns` above `INT_MIN` (-2147483648) whose
effective target width `c` exceeds `W`, the effective width is the absolute value of
the request and `imageASCIIArt` asks the resample stage for the extent
`(W-2) x (H-2)` of the filtered image, whatever `c` is; when the stage succeeds the
text is `H - 2` lines of `W - 2` characters: the output is never enlarged. -/
theorem upscale_keeps_filtered_extent (B : Backend) (imagePath : String) (img : Image)
    (outColumns filter : Int) (asciiPattern : List Char)
    (hmin : -2147483648 < outColumns)
    (hE : B.fsExists imagePath = some true) (hC : getStreamContext B = NPP_SUCCESS)
    (hL : B.loadImage imagePath = LoadResult.loaded img)
    (hA : B.deviceAlloc ((img.width : Int) - 3 + 1) ((img.height : Int) - 3 + 1) = true)
    (hF : B.cudaFree = true)
    (h3w : 3 ≤ img.width) (h3h : 3 ≤ img.height)
    (hU : (img.width : Int) < resolveColumns outColumns (img.width : Int)) :
    resolveColumns outColumns (img.width : Int) = |outColumns| ∧
    resizeRequests (imageASCIIArt B imagePath outColumns filter asciiPattern).calls =
      [⟨(img.width : Int) - 2, (img.height : Int) - 2⟩] ∧
    ((B.nppiResize (filteredImage B img filter)
        ⟨(img.width : Int) - 2, (img.height : Int) - 2⟩
        ⟨(img.width : Int) - 2, (img.height : Int) - 2⟩).1 = NppStatus.NPP_NO_ERROR →
      (imageASCIIArt B imagePath outColumns filter asciiPattern).ret = some true ∧
      ∃ lines : List (List Char), lines.length = img.height - 2 ∧
        (∀ l ∈ lines, l.length = img.width - 2) ∧
        (imageASCIIArt B imagePath outColumns filter asciiPattern).cout =
          (lines.map (fun l => l ++ ['\n'])).flatten) := by
  have hfw := filteredImage_width B img filter h3w
  have hfh := filteredImage_height B img filter h3h
  have hS : resizedSize (resolveColumns outColumns (img.width : Int))
      ⟨(img.width : Int), (img.height : Int)⟩
      ⟨((filteredImage B img filter).width : Int), ((filteredImage B img filter).height : Int)⟩
      = ⟨(img.width : Int) - 2, (img.height : Int) - 2⟩ := by
    rw [resizedSize_upscale _ img.width img.height _ (by omega) (le_of_lt hU), hfw, hfh]
  have hne : resolveColumns outColumns (img.width : Int) ≠ (img.width : Int) := ne_of_gt hU
  have habs : resolveColumns outColumns (img.width : Int) = |outColumns| := by
    rcases lt_trichotomy outColumns 0 with h | h | h
    · exact resolveColumns_neg _ _ h hmin
    · rw [h, resolveColumns_zero] at hU
      exact absurd hU (lt_irrefl _)
    · rw [resolveColumns_pos _ _ h, abs_of_pos h]
  refine ⟨habs, ?_, ?_⟩
  · rw [imageASCIIArt_resize_request B imagePath img outColumns filter asciiPattern hE hC hL
      hA hF hne, hS]
  · intro hR
    have hA2 : B.deviceAlloc (⟨(img.width : Int) - 2, (img.height : Int) - 2⟩ : NppiSize).width
        (⟨(img.width : Int) - 2, (img.height : Int) - 2⟩ : NppiSize).height = true := by
      have e1 : (img.width : Int) - 2 = (img.width : Int) - 3 + 1 := by ring
      have e2 : (img.height : Int) - 2 = (img.height : Int) - 3 + 1 := by ring
      show B.deviceAlloc ((img.width : Int) - 2) ((img.height : Int) - 2) = true
      rw [e1, e2]; exact hA
    have e := imageASCIIArt_resized B imagePath img outColumns filter asciiPattern hE hC hL
      hA hF hne ⟨(img.width : Int) - 2, (img.height : Int) - 2⟩ hS hA2
      (by rw [hfw, hfh]; exact hR)
    refine ⟨by rw [e], ?_⟩
    obtain ⟨lines, h1, h2, h3⟩ := outAsciiArt_lines
      (resizedImage B (filteredImage B img filter)
        ⟨(img.width : Int) - 2, (img.height : Int) - 2⟩) filter asciiPattern
    have hrw : (resizedImage B (filteredImage B img filter)
        ⟨(img.width : Int) - 2, (img.height : Int) - 2⟩).width = img.width - 2 := by
      show ((img.width : Int) - 2).toNat = _; omega
    have hrh : (resizedImage B (filteredImage B img filter)
        ⟨(img.width : Int) - 2, (img.height : Int) - 2⟩).height = img.height - 2 := by
      show ((img.height : Int) - 2).toNat = _; omega
    refine ⟨lines, by rw [h1, hrh], ?_, by rw [e]; exact h3⟩
    intro l hl
    rw [h2 l hl, hrw]

/-- Witness of C7: a 6 x 5 gradient image with 20 and with -300 columns requested. -/
theorem upscale_keeps_filtered_extent_witness :
    resizeRequests (imageASCIIArt (refBackend (gradientImage 6 5)) "g.pgm" 20 8 []).calls
      = [⟨4, 3⟩] ∧
    resizeRequests (imageASCIIArt (refBackend (gradientImage 6 5)) "g.pgm" (-300) 8 []).calls
      = [⟨4, 3⟩] ∧
    (imageASCIIArt (refBackend (gradientImage 6 5)) "g.pgm" 20 8 []).ret = some true :=
  ⟨(upscale_keeps_filtered_extent (refBackend (gradientImage 6 5)) "g.pgm" (gradientImage 6 5)
      20 8 [] (by decide) rfl (by decide) rfl (by decide) rfl (by decide) (by decide)
      (by decide)).2.1,
   (upscale_keeps_filtered_extent (refBackend (gradientImage 6 5)) "g.pgm" (gradientImage 6 5)
      (-300) 8 [] (by decide) rfl (by decide) rfl (by decide) rfl (by decide) (by decide)
      (by decide)).2.1,
   ((upscale_keeps_filtered_extent (refBackend (gradientImage 6 5)) "g.pgm"
      (gradientImage 6 5) 20 8 [] (by decide) rfl (by decide) rfl (by decide) rfl (by decide)
      (by decide) (by decide)).2.2 (by decide)).1⟩

/-- C6, the code at a failing input: for a 13 x 13 source and `outColumns = 7` the
single-precision product `13 * (7 / 13)` is above 7, so the extent asked of the
resample stage is 8 x 8 and the text has 8 lines of 8 characters, where the request and
the claim say 7 columns and `ceil(13 * 7 / 13) = 7` lines. For a 100 x 37 source and
`outColumns = 50` the extent is 50 x 19 as claimed. -/
theorem downscale_target_at_13_7 :
    resizedSize 7 ⟨13, 13⟩ ⟨11, 11⟩ = ⟨8, 8⟩ ∧
    resizeRequests (imageASCIIArt (refBackend (gradientImage 13 13)) "g.pgm" 7 0 []).calls
      = [⟨8, 8⟩] ∧
    (imageASCIIArt (refBackend (gradientImage 13 13)) "g.pgm" 7 0 []).ret = some true ∧
    (imageASCIIArt (refBackend (gradientImage 13 13)) "g.pgm" 7 0 []).cout.length
      = 8 * (8 + 1) ∧
    ((imageASCIIArt (refBackend (gradientImage 13 13)) "g.pgm" 7 0 []).cout.take 9).getLast?
      = some '\n' ∧
    resizedSize 50 ⟨100, 37⟩ ⟨98, 35⟩ = ⟨50, 19⟩ := by
  refine ⟨by decide, by decide, by decide, by decide, by decide, by decide⟩

/-! ## C11: an unavailable source -/

/-- The status `resizeDeviceImage` returns is the status of the resample primitive. -/
theorem resizeDeviceImage_status (B : Backend) (src : Image) (dstSize : NppiSize)
    (dst : Image) (hA : B.deviceAlloc dstSize.width dstSize.height = true) :
    (resizeDeviceImage B src dstSize dst).status =
      some (B.nppiResize src ⟨(src.width : Int), (src.height : Int)⟩ dstSize).1 := by
  simp [resizeDeviceImage, hA]

/-- A failure of the resample primitive ends the request: on a source that loads and
filters, `imageASCIIArt` returns false and writes no text. -/
theorem imageASCIIArt_resize_failure (B : Backend) (imagePath : String) (img : Image)
    (outColumns filter : Int) (asciiPattern : List Char)
    (hE : B.fsExists imagePath = some true) (hC : getStreamContext B = NPP_SUCCESS)
    (hL : B.loadImage imagePath = LoadResult.loaded img)
    (hA : B.deviceAlloc ((img.width : Int) - 3 + 1) ((img.height : Int) - 3 + 1) = true)
    (hF : B.cudaFree = true)
    (hW : resolveColumns outColumns (img.width : Int) ≠ (img.width : Int))
    (hR : (B.nppiResize (filteredImage B img filter)
      ⟨((filteredImage B img filter).width : Int), ((filteredImage B img filter).height : Int)⟩
      (resizedSize (resolveColumns outColumns (img.width : Int))
        ⟨(img.width : Int), (img.height : Int)⟩
        ⟨((filteredImage B img filter).width : Int),
          ((filteredImage B img filter).height : Int)⟩)).1 ≠ NppStatus.NPP_NO_ERROR) :
    (imageASCIIArt B imagePath outColumns filter asciiPattern).ret = some false ∧
    (imageASCIIArt B imagePath outColumns filter asciiPattern).cout = [] := by
  simp only [imageASCIIArt, hE, hC, getCPUandDeviceImage, hL,
    applyConvolutionFilter_ok B img Image.empty filter hA hF, hW]
  simp only [Bool.true_eq_false, if_false, ne_eq, not_true_eq_false]
  simp only [resizeDeviceImage]
  split_ifs with hA2
  · exact ⟨rfl, rfl⟩
  · simp [hR]

/-- C12, the code at a failing input: on a 5 x 5 source whose convolution primitive
reports the failure status -1000, `convolutionFilter` returns `NPP_NO_ERROR`, and
`imageASCIIArt` returns true and writes three lines of text, where the claim says a
non-success status, false and no text. The resample stage does what the claim says: on
an 8 x 8 source whose resample primitive reports -1000, `resizeDeviceImage` returns
that status and `imageASCIIArt` returns false and writes nothing. -/
theorem filter_failure_dropped :
    ((faultyFilterBackend (gradientImage 5 5)).nppiFilter (gradientImage 5 5) ⟨3, 3⟩
      [1, 1, 1, 0, 0, 0, -1, -1, -1] ⟨3, 3⟩ ⟨2, 2⟩ 1).1 = NppStatus.other (-1000) ∧
    (convolutionFilter (faultyFilterBackend (gradientImage 5 5)) (gradientImage 5 5)
      Image.empty [1, 1, 1, 0, 0, 0, -1, -1, -1] ⟨3, 3⟩ ⟨2, 2⟩ 1).status
        = some NppStatus.NPP_NO_ERROR ∧
    (imageASCIIArt (faultyFilterBackend (gradientImage 5 5)) "g.pgm" 0 8 []).ret = some true ∧
    (imageASCIIArt (faultyFilterBackend (gradientImage 5 5)) "g.pgm" 0 8 []).cout
      = "  4\n444\n   \n".toList ∧
    (resizeDeviceImage (faultyResizeBackend (gradientImage 8 8)) (gradientImage 6 6) ⟨4, 4⟩
      Image.empty).status = some (NppStatus.other (-1000)) ∧
    (imageASCIIArt (faultyResizeBackend (gradientImage 8 8)) "g.pgm" 4 8 []).ret = some false ∧
    (imageASCIIArt (faultyResizeBackend (gradientImage 8 8)) "g.pgm" 4 8 []).cout = [] := by
  refine ⟨by decide, by decide, by decide, by decide, by decide, by decide, by decide⟩

/-! ## C13: the default ramp -/

/-- C13, the claim as stated fails: the default ramp has 29 characters, not 30. -/
theorem defaultPattern_length_counterexample :
    defaultPattern = "  -.,-=+:;cba?0123456789$WN#@".toList ∧
    defaultPattern.length = 29 ∧ ¬ defaultPattern.length = 30 := by
  refine ⟨rfl, by decide, by decide⟩

/-- C13 as amended: with an empty `asciiPattern`, `outAsciiArt` renders with the default
ramp `"  -.,-=+:;cba?0123456789$WN#@"`, a sequence of 29 characters whose index 0 (and
index 1) is the space character and which is also the ramp `main` starts from; a
non-empty caller ramp is used unchanged. -/
theorem default_ramp (out : List Char) (img : Image) (filter : Int) (ramp : List Char) :
    outAsciiArt out img filter [] =
      outAsciiArt out img filter "  -.,-=+:;cba?0123456789$WN#@".toList ∧
    "  -.,-=+:;cba?0123456789$WN#@".toList.length = 29 ∧
    "  -.,-=+:;cba?0123456789$WN#@".toList[0]? = some ' ' ∧
    "  -.,-=+:;cba?0123456789$WN#@".toList[1]? = some ' ' ∧
    mainAsciiPattern = "  -.,-=+:;cba?0123456789$WN#@".toList ∧
    (ramp ≠ [] →
      outAsciiArt out img filter ramp =
        out ++ ((List.range img.height).map (asciiRow img ramp)).flatten) := by
  refine ⟨?_, by decide, by decide, by decide, rfl, outAsciiArt_nonempty out img filter ramp⟩
  have h : ("  -.,-=+:;cba?0123456789$WN#@".toList).length ≠ 0 := by decide
  simp only [outAsciiArt, List.length_nil, if_true, h, if_false]
  rfl

/-- Witness of the amended C13: a 2 x 1 image rendered with the ramp `"ab"` and with no
ramp. -/
theorem default_ramp_witness :
    outAsciiArt [] (constImage 2 1 255) 0 "ab".toList = "bb\n".toList ∧
    outAsciiArt [] (constImage 2 1 255) 0 [] = "@@\n".toList :=
  ⟨((default_ramp [] (constImage 2 1 255) 0 "ab".toList).2.2.2.2.2 (by decide)).trans
      (by decide),
   (default_ramp [] (constImage 2 1 255) 0 "ab".toList).1.trans (by decide)⟩

end AsciiArt
